import Mathlib

/-!
Shallow embedding of the spatial network graph builder from
`src/orm-modeling` (`model.py` and `service.py`).

Modelling conventions:
* Python floats are modelled as exact rationals (`ℚ`).  The float
  comparison `distance <= margin`, where `distance = sqrt(dx^2+dy^2)`,
  is modelled by the equivalent rational comparison
  `0 ≤ margin ∧ dx^2+dy^2 ≤ margin^2` (squaring both sides of the
  monotone square root; a negative margin can never be ≥ a distance).
* Heterogeneous Python metadata values (number | bool | string |
  list-of-scalars, as described in the spec's data model and used by the
  tests) are a tagged variant.  Python's `isinstance(x, (int, float))`
  is true for `bool` values as well, and `1 == True == 1.0` under
  Python equality; both facts are reflected below.
* The SQLAlchemy session is a `DB` value holding the point and line
  tables in creation (id) order; `select(...).where(...)` queries are
  list filters, in-place object mutation is explicit record update.
-/

set_option allowUnsafeReducibility true
attribute [semireducible] Rat.add Rat.sub Rat.mul Rat.inv

namespace OrmModel

/-- A coordinate pair `(x, y)`. -/
abbrev Coord : Type := ℚ × ℚ

/-- A scalar Python metadata value: int, float, bool or string. -/
inductive Scalar : Type where
  | int : ℤ → Scalar
  | num : ℚ → Scalar
  | bool : Bool → Scalar
  | str : String → Scalar
deriving DecidableEq, Repr

/-- A Python metadata value: a scalar or an ordered list of scalars. -/
inductive Value : Type where
  | scalar : Scalar → Value
  | list : List Scalar → Value
deriving DecidableEq, Repr

/-- `isinstance(x, (int, float))`: Python `bool` is a subtype of `int`,
so booleans count as numbers. -/
def Scalar.isNumber : Scalar → Bool
  | .int _ => true
  | .num _ => true
  | .bool _ => true
  | .str _ => false

/-- `isinstance(x, bool)`. -/
def Scalar.isBool : Scalar → Bool
  | .bool _ => true
  | _ => false

/-- `isinstance(x, str)`. -/
def Scalar.isStr : Scalar → Bool
  | .str _ => true
  | _ => false

/-- Numeric value of a scalar (Python `True == 1`, `False == 0`);
only meaningful when `isNumber`. -/
def Scalar.toRat : Scalar → ℚ
  | .int n => (n : ℚ)
  | .num q => q
  | .bool b => if b then 1 else 0
  | .str _ => 0

/-- Python `==` on scalars: numbers (ints, floats, bools) compare by
numeric value, strings structurally, number-vs-string is unequal. -/
def pyEqScalar (a b : Scalar) : Bool :=
  if a.isNumber && b.isNumber then a.toRat == b.toRat
  else
    match a, b with
    | .str x, .str y => x == y
    | _, _ => false

/-- Python `==` on metadata values (lists compare elementwise). -/
def pyEqValue : Value → Value → Bool
  | .scalar a, .scalar b => pyEqScalar a b
  | .list as, .list bs =>
      as.length == bs.length && (as.zip bs).all fun ab => pyEqScalar ab.1 ab.2
  | _, _ => false

/-- `list(dict.fromkeys(l))`: remove duplicates (under Python equality)
keeping the first occurrence, preserving order. -/
def pyDedup (l : List Scalar) : List Scalar :=
  l.foldl (fun acc a => if acc.any (fun b => pyEqScalar b a) then acc else acc ++ [a]) []

/-- A metadata mapping (Python dict), as an insertion-ordered
association list with distinct keys. -/
abbrev MetaMap : Type := List (String × Value)

/-- Dict lookup `m.get(k)`. -/
def metaGet (m : MetaMap) (k : String) : Option Value :=
  (m.find? fun kv => kv.1 == k).map fun kv => kv.2

/-- Dict assignment `m[k] = v`: replace in place if the key exists
(keeping its position, as Python dicts do), otherwise append. -/
def metaSet (m : MetaMap) (k : String) (v : Value) : MetaMap :=
  if m.any (fun kv => kv.1 == k) then
    m.map fun kv => if kv.1 == k then (k, v) else kv
  else
    m ++ [(k, v)]

/-- The "maximize" numeric key class of `_merge_metadata_values`. -/
def maximizeKeys : List String := ["capacity", "priority_level", "area", "beds"]

/-- The "any-true" boolean key class of `_merge_metadata_values`. -/
def anyTrueKeys : List String := ["emergency", "parking", "traffic_light"]

/-- The string-concatenation key class of `_merge_metadata_values`. -/
def concatKeys : List String := ["name", "type"]

/-- `NetworkGraphBuilder._merge_metadata_values(key, existing, new)`:
lists concatenate with first-seen dedup; numbers (including bools) on a
maximize-class key take the max (Python `max` returns its first
argument on ties); bools on an any-true-class key take OR; differing
strings on a concat-class key join with " / "; otherwise the existing
value is kept. -/
def mergeMetadataValues (key : String) (existingValue newValue : Value) : Value :=
  match existingValue, newValue with
  | .list l1, .list l2 => .list (pyDedup (l1 ++ l2))
  | .scalar a, .scalar b =>
      if a.isNumber && b.isNumber && maximizeKeys.contains key then
        .scalar (if a.toRat < b.toRat then b else a)
      else if a.isBool && b.isBool && anyTrueKeys.contains key then
        match a, b with
        | .bool x, .bool y => .scalar (.bool (x || y))
        | _, _ => .scalar a
      else if a.isStr && b.isStr && a ≠ b && concatKeys.contains key then
        match a, b with
        | .str x, .str y => .scalar (.str (x ++ " / " ++ y))
        | _, _ => .scalar a
      else .scalar a
  | _, _ => existingValue

/-- A `tbl_point` row (`model.Point`).

`metavar`, together with the `get_metadata`/`set_metadata` accessors
(`metaGet`/`metaSet`), is Modelled from the spec: `model.py` in the
repository snapshot does not carry the metadata column used by
`service.py` and all the tests; the spec's data model describes it as a
mapping from string keys to heterogeneous values, `None` until first
set. -/
structure Point where
  id : ℕ
  x : ℚ
  y : ℚ
  is_merged : Bool := false
  merged_into_id : Option ℕ := none
  metavar : Option MetaMap := none
deriving DecidableEq, Repr

/-- `Point.coord`. -/
def Point.coord (p : Point) : Coord := (p.x, p.y)

/-- A `tbl_line` row (`model.Line`), with the metadata column used by
`service.py` (see `Point` for the modelling note). -/
structure Line where
  id : ℕ
  x1 : ℚ
  y1 : ℚ
  x2 : ℚ
  y2 : ℚ
  is_split : Bool := false
  metavar : Option MetaMap := none
deriving DecidableEq, Repr

/-- `Line.start_coord`. -/
def Line.startCoord (l : Line) : Coord := (l.x1, l.y1)

/-- `Line.end_coord`. -/
def Line.endCoord (l : Line) : Coord := (l.x2, l.y2)

/-- `Line.update_endpoint(old_coord, new_coord)`: each of the two
endpoints is rewritten if (and only if) it equals `old_coord`. -/
def Line.updateEndpoint (l : Line) (oldc newc : Coord) : Line :=
  let l1 := if l.x1 == oldc.1 && l.y1 == oldc.2 then
    { l with x1 := newc.1, y1 := newc.2 } else l
  if l1.x2 == oldc.1 && l1.y2 == oldc.2 then
    { l1 with x2 := newc.1, y2 := newc.2 } else l1

/-- `Line.has_endpoint(coord)`. -/
def Line.hasEndpoint (l : Line) (c : Coord) : Bool :=
  (l.x1 == c.1 && l.y1 == c.2) || (l.x2 == c.1 && l.y2 == c.2)

/-- Squared Euclidean distance between two coordinates. -/
def dist2 (a b : Coord) : ℚ := (a.1 - b.1) ^ 2 + (a.2 - b.2) ^ 2

/-- `Point.distance_to_point(other) <= margin`, i.e.
`sqrt(dist2) <= margin`, expressed without the square root:
a nonnegative margin whose square dominates the squared distance. -/
def distLe (a b : Coord) (margin : ℚ) : Bool :=
  decide (0 ≤ margin) && decide (dist2 a b ≤ margin ^ 2)

/-- The session state: the point and line tables in creation (id)
order, plus the next fresh line id the store would assign. -/
structure DB where
  points : List Point
  lines : List Line
  nextLineId : ℕ
deriving DecidableEq, Repr

/-- Well-formedness provided by the relational store: primary keys are
unique, and ids of existing lines are below the autoincrement counter. -/
def DB.WF (db : DB) : Prop :=
  (db.points.map Point.id).Nodup ∧ (db.lines.map Line.id).Nodup ∧
    ∀ l ∈ db.lines, l.id < db.nextLineId

instance : DecidablePred DB.WF := fun db => by
  unfold DB.WF; infer_instance

/-- `select(Point).where(Point.is_merged == False)`. -/
def DB.activePoints (db : DB) : List Point :=
  db.points.filter fun p => !p.is_merged

/-- `select(Line).where(Line.is_split == False)`. -/
def DB.activeLines (db : DB) : List Line :=
  db.lines.filter fun l => !l.is_split

/-- Fetch the (unique, given `WF`) point with a given id. -/
def DB.findPoint (db : DB) (pid : ℕ) : Option Point :=
  db.points.find? fun p => p.id == pid

/-- Mutate the point object with a given id in place. -/
def DB.updPoint (db : DB) (pid : ℕ) (f : Point → Point) : DB :=
  { db with points := db.points.map fun p => if p.id == pid then f p else p }

/-- Mutate the line object with a given id in place. -/
def DB.updLine (db : DB) (lid : ℕ) (f : Line → Line) : DB :=
  { db with lines := db.lines.map fun l => if l.id == lid then f l else l }

/-- Whether the point with id `a` exists and is a root (not merged). -/
def DB.isActiveId (db : DB) (a : ℕ) : Bool :=
  db.points.any fun p => p.id == a && !p.is_merged

/-- `NetworkGraphBuilder._merge_point_metadata(target, source)`: walk
the source dict in insertion order; keys absent from the (current)
target dict are added, keys present are reconciled with
`mergeMetadataValues`.  The source is unchanged; `metaMergeStep` is one
iteration of that walk. -/
def metaMergeStep (acc : MetaMap) (kv : String × Value) : MetaMap :=
  match metaGet acc kv.1 with
  | none => metaSet acc kv.1 kv.2
  | some ev => metaSet acc kv.1 (mergeMetadataValues kv.1 ev kv.2)

def mergePointMetadata (target source : Point) : Point :=
  match source.metavar with
  | none => target
  | some sm =>
      let tm := target.metavar.getD []
      { target with metavar := some (sm.foldl metaMergeStep tm) }

/-- One body execution of the inner loop of `merge_nearby_points`:
`point1`/`point2` are re-read from the session (they are live objects
in Python), an already-merged `point2` is skipped, and a pair within
`margin` merges `point2` into `point1`, reconciling metadata, marking
`point2`, recording it in the returned list, and rewriting every line
endpoint equal to `point2`'s coordinate to `point1`'s coordinate
(`update_endpoint` itself tests each endpoint, so mapping it over all
lines equals the `has_endpoint` query followed by the update).
`mergeFire` is the state change of a firing merge; `mergeStep` adds the
guards around it. -/
def mergeFire (db : DB) (p1id p2id : ℕ) (p1 p2 : Point) : DB :=
  let db1 := db.updPoint p1id fun q => mergePointMetadata q p2
  let db2 := db1.updPoint p2id fun q =>
    { q with is_merged := true, merged_into_id := some p1id }
  { db2 with lines := db2.lines.map fun l => l.updateEndpoint p2.coord p1.coord }

def mergeStep (margin : ℚ) (p1id : ℕ) (st : DB × List ℕ) (p2id : ℕ) : DB × List ℕ :=
  match st.1.findPoint p1id, st.1.findPoint p2id with
  | some p1, some p2 =>
      if p2.is_merged then st
      else if distLe p1.coord p2.coord margin then
        (mergeFire st.1 p1id p2id p1 p2, st.2 ++ [p2id])
      else st
  | _, _ => st

/-- The outer loop of `merge_nearby_points` over the snapshot id list:
for each `point1` (skipped if merged meanwhile), scan all subsequent
snapshot points as `point2`. -/
def mergeOuter (margin : ℚ) : List ℕ → DB × List ℕ → DB × List ℕ
  | [], st => st
  | p1id :: rest, st =>
      let st1 :=
        match st.1.findPoint p1id with
        | some p1 => if p1.is_merged then st else rest.foldl (mergeStep margin p1id) st
        | none => st
      mergeOuter margin rest st1

/-- `NetworkGraphBuilder.merge_nearby_points(margin)`: snapshot the
active points, run the pairwise scan, return the final session state
and the ids of the points that were merged (the Python function
returns the merged `Point` objects themselves). -/
def mergeNearbyPoints (db : DB) (margin : ℚ) : DB × List ℕ :=
  mergeOuter margin (db.activePoints.map Point.id) (db, [])

/-- Squared distance from coordinate `c` to the segment of line `l`
(the exact geometry behind shapely's `dwithin` re-check): project onto
the segment, clamping the parameter to `[0, 1]`; a degenerate segment
is the distance to its point. -/
def sqDistToSeg (l : Line) (c : Coord) : ℚ :=
  let ax := l.x1; let ay := l.y1
  let dx := l.x2 - l.x1; let dy := l.y2 - l.y1
  let len2 := dx ^ 2 + dy ^ 2
  if len2 = 0 then dist2 (ax, ay) c
  else
    let t := ((c.1 - ax) * dx + (c.2 - ay) * dy) / len2
    let t := max 0 (min 1 t)
    dist2 (ax + t * dx, ay + t * dy) c

/-- `line_geom.dwithin(point, tolerance)`: true segment-to-point
distance at most `tolerance`, squared form. -/
def segDistLe (l : Line) (c : Coord) (tol : ℚ) : Bool :=
  decide (0 ≤ tol) && decide (sqDistToSeg l c ≤ tol ^ 2)

/-- Sorting key equivalent to `line_geom.project(Point(c))` (arc length
from the start to the nearest segment point): the clamped projection
parameter; scaling by the constant segment length does not change the
order, and a degenerate segment gives equal keys either way. -/
def projKey (l : Line) (c : Coord) : ℚ :=
  let dx := l.x2 - l.x1; let dy := l.y2 - l.y1
  let len2 := dx ^ 2 + dy ^ 2
  if len2 = 0 then 0
  else max 0 (min 1 (((c.1 - l.x1) * dx + (c.2 - l.y1) * dy) / len2))

/-- Stable insertion into a list sorted by a rational key (a later
element never moves before an equal-key earlier one). -/
def insertByKey (key : Coord → ℚ) (x : Coord) : List Coord → List Coord
  | [] => [x]
  | y :: ys => if key x < key y then x :: y :: ys else y :: insertByKey key x ys

/-- Python's stable `list.sort(key=...)`: stable insertion sort gives
the same result as any stable sort by the same key. -/
def sortByKey (key : Coord → ℚ) (l : List Coord) : List Coord :=
  l.foldl (fun acc x => insertByKey key x acc) []

/-- The candidate points of one line in `split_lines_on_points`: active
points that are not an endpoint of the line and pass the exact
`dwithin` tolerance check.  (The STRtree buffer query is a superset
pre-filter of the `dwithin` re-check, so the accepted set is the same;
candidate order only matters for equal projection keys.) -/
def pointsOnLine (pts : List Point) (l : Line) (tol : ℚ) : List Point :=
  pts.filter fun p =>
    !(p.coord == l.startCoord || p.coord == l.endCoord) && segDistLe l p.coord tol

/-- `session.add(Line(coords=(c1, c2)))`: a fresh line with only its
two endpoint coordinates set. -/
def DB.addLine (db : DB) (c1 c2 : Coord) : DB × Line :=
  let l : Line := { id := db.nextLineId, x1 := c1.1, y1 := c1.2,
                    x2 := c2.1, y2 := c2.2 }
  ({ db with lines := db.lines ++ [l], nextLineId := db.nextLineId + 1 }, l)

/-- Create the consecutive sub-segment lines between the sorted
coordinates. -/
def addSegments (db : DB) : List Coord → DB × List Line
  | [] => (db, [])
  | [_] => (db, [])
  | c1 :: c2 :: rest =>
      let (db1, l) := db.addLine c1 c2
      let (db2, ls) := addSegments db1 (c2 :: rest)
      (db2, l :: ls)

/-- `NetworkGraphBuilder.split_lines_on_points(tolerance)`: snapshot
active points and lines; for each line with interior candidate points,
set `is_split`, order `[start] ++ candidates ++ [end]` by projected
distance along the line (stably, as Python's sort), and create the
consecutive sub-segments.  Returns the state and the new lines.
`splitStep` handles one line of the snapshot. -/
def splitStep (pts : List Point) (tol : ℚ) (st : DB × List Line) (l : Line) :
    DB × List Line :=
  let pol := pointsOnLine pts l tol
  if pol.isEmpty then st
  else
    let db1 := st.1.updLine l.id fun l0 => { l0 with is_split := true }
    let allPts := sortByKey (projKey l)
      (l.startCoord :: (pol.map Point.coord ++ [l.endCoord]))
    let (db2, segs) := addSegments db1 allPts
    (db2, st.2 ++ segs)

def splitLinesOnPoints (db : DB) (tol : ℚ) : DB × List Line :=
  let pts := db.activePoints
  let lines := db.activeLines
  if pts.isEmpty || lines.isEmpty then (db, [])
  else lines.foldl (splitStep pts tol) (db, [])

/-- The igraph projection: vertex `i` carries the coordinate of the
`i`-th active point; edges are index pairs. -/
structure NetGraph where
  coords : List Coord
  edges : List (ℕ × ℕ)
deriving DecidableEq, Repr

/-- Index assigned to a coordinate by the `point_to_index` dict: built
by a forward scan with overwriting, so the LAST active point with that
coordinate wins. -/
def lastIdx : List Coord → Coord → Option ℕ
  | [], _ => none
  | a :: as, c =>
      match lastIdx as c with
      | some j => some (j + 1)
      | none => if a == c then some 0 else none

/-- `NetworkGraphBuilder.create_igraph()`: one vertex per active point;
one edge per active line both of whose endpoints resolve in
`point_to_index` (others are silently dropped). -/
def createIgraph (db : DB) : NetGraph :=
  let coords := db.activePoints.map Point.coord
  { coords := coords
    edges := db.activeLines.filterMap fun l =>
      match lastIdx coords l.startCoord, lastIdx coords l.endCoord with
      | some i, some j => some (i, j)
      | _, _ => none }

/-- igraph vertex degree (an undirected self-loop counts twice). -/
def NetGraph.degree (g : NetGraph) (i : ℕ) : ℕ :=
  (g.edges.map fun e =>
    (if e.1 = i then 1 else 0) + (if e.2 = i then 1 else 0)).sum

/-- Undirected adjacency. -/
def NetGraph.adj (g : NetGraph) (u v : ℕ) : Bool :=
  g.edges.any fun e => (e.1 == u && e.2 == v) || (e.1 == v && e.2 == u)

/-- Depth-first enumeration of the simple paths from `u` to `target`
avoiding `visited`; the fuel bounds the recursion depth (any simple
path visits at most `|V|` vertices). -/
def simplePathsAux (g : NetGraph) (target : ℕ) :
    ℕ → ℕ → List ℕ → List (List ℕ)
  | 0, _, _ => []
  | fuel + 1, u, visited =>
      if u = target then [[u]]
      else
        ((List.range g.coords.length).filter
            (fun v => g.adj u v && !(visited.contains v))).flatMap
          fun v => (simplePathsAux g target fuel v (u :: visited)).map
            fun p => u :: p

/-- `graph.get_all_simple_paths(s, t)`: all simple paths, as vertex
index sequences. -/
def getAllSimplePaths (g : NetGraph) (s t : ℕ) : List (List ℕ) :=
  simplePathsAux g t g.coords.length s []

/-- The dictionaries appended by the path-query methods. -/
structure PathInfo where
  start : Coord
  stop : Coord
  path : List Coord
  length : ℕ
  vertex_indices : List ℕ
deriving DecidableEq, Repr

/-- Build the `path_info` dict for a path between two vertex indices. -/
def mkPathInfo (g : NetGraph) (sc ec : Coord) (pidx : List ℕ) : PathInfo :=
  { start := sc
    stop := ec
    path := pidx.map fun i => g.coords.getD i (0, 0)
    length := pidx.length - 1
    vertex_indices := pidx }

/-- `next((p for p in points if p.coord == coord), None)` over the
active point list: the FIRST active point with the coordinate. -/
def firstActiveWithCoord (db : DB) (c : Coord) : Option Point :=
  db.activePoints.find? fun p => p.coord == c

/-- `NetworkGraphBuilder._matches_filter(point, conditions)`: a point
with no metadata (a `None` or empty dict is falsy) matches nothing;
otherwise every filter key must be present with a (Python-)equal
value. -/
def matchesFilter (p : Point) (conds : MetaMap) : Bool :=
  match p.metavar with
  | none => false
  | some m =>
      if m.isEmpty then false
      else conds.all fun kv =>
        match metaGet m kv.1 with
        | some v => pyEqValue v kv.2
        | none => false

/-- Python truthiness of an optional filter dict: `None` and the empty
dict are falsy. -/
def truthy : Option MetaMap → Bool
  | none => false
  | some [] => false
  | some (_ :: _) => true

/-- Whether the vertex `idx` resolves (via its coordinate, then the
first active point with that coordinate) to a point matching the
filter. -/
def forbiddenVertex (db : DB) (g : NetGraph) (idx : ℕ) (conds : MetaMap) : Bool :=
  match g.coords.get? idx with
  | none => false
  | some c =>
      match firstActiveWithCoord db c with
      | some p => matchesFilter p conds
      | none => false

/-- `path_indices[1:-1]`: the intermediate vertices of a path. -/
def intermediates (l : List ℕ) : List ℕ := (l.drop 1).dropLast

/-- `NetworkGraphBuilder._path_has_forbidden_intermediate`. -/
def pathHasForbiddenIntermediate (db : DB) (g : NetGraph) (pidx : List ℕ)
    (conds : MetaMap) : Bool :=
  if pidx.length ≤ 2 then false
  else (intermediates pidx).any fun idx => forbiddenVertex db g idx conds

/-- `NetworkGraphBuilder.get_paths_between_endpoints(start, end,
avoid_intermediate_filter)`.  Unresolved coordinates yield `[]`; an
absent or empty (falsy) avoid filter disables the intermediate
check. -/
def getPathsBetweenEndpoints (db : DB) (sc ec : Coord)
    (avoidF : Option MetaMap) : List PathInfo :=
  let g := createIgraph db
  match lastIdx g.coords sc, lastIdx g.coords ec with
  | some si, some ei =>
      ((getAllSimplePaths g si ei).filter fun p =>
          !(truthy avoidF && pathHasForbiddenIntermediate db g p (avoidF.getD []))).map
        fun p => mkPathInfo g sc ec p
  | _, _ => []

/-- First graph index of a coordinate (`get_paths_between_point_groups`
scans forward and breaks on the first match). -/
def firstIdx (coords : List Coord) (c : Coord) : Option ℕ :=
  coords.findIdx? fun a => a == c

/-- `NetworkGraphBuilder.get_paths_between_point_groups(starts, ends,
avoid_intermediate_filter)`. -/
def getPathsBetweenPointGroups (db : DB) (startCs endCs : List Coord)
    (avoidF : Option MetaMap) : List PathInfo :=
  let g := createIgraph db
  let sIdxs := startCs.filterMap fun c => firstIdx g.coords c
  let eIdxs := endCs.filterMap fun c => firstIdx g.coords c
  sIdxs.flatMap fun si =>
    eIdxs.flatMap fun ei =>
      if si = ei then []
      else
        ((getAllSimplePaths g si ei).filter fun p =>
            !(truthy avoidF &&
              pathHasForbiddenIntermediate db g p (avoidF.getD []))).map
          fun p => mkPathInfo g (g.coords.getD si (0, 0)) (g.coords.getD ei (0, 0)) p

/-- Start-vertex acceptance in the filtered branch of
`get_all_endpoint_paths`: degree 1, no conflicting `is_end` metadata
(absent or Python-equal to `False`), and (unless the start filter is
the empty dict) an exact metadata match. -/
def startOk (db : DB) (g : NetGraph) (sf : MetaMap) (i : ℕ) : Bool :=
  match firstActiveWithCoord db (g.coords.getD i (0, 0)) with
  | none => false
  | some p =>
      g.degree i == 1 &&
      (match p.metavar.bind fun m => metaGet m "is_end" with
        | none => true
        | some v => pyEqValue v (.scalar (.bool false))) &&
      (sf.isEmpty || matchesFilter p sf)

/-- End-vertex acceptance in the filtered branch. -/
def endOk (db : DB) (g : NetGraph) (ef : MetaMap) (i : ℕ) : Bool :=
  match firstActiveWithCoord db (g.coords.getD i (0, 0)) with
  | none => false
  | some p => matchesFilter p ef

/-- `NetworkGraphBuilder.get_all_endpoint_paths(endpoint_filter,
start_filter, end_filter)`.  With a start or end filter present the
start/end vertex sets come from `startOk`/`endOk` (a `None` filter
contributes the empty set), start vertices also matching a truthy end
filter are skipped, and the forbidden-intermediate filter is the end
filter; otherwise both sets are the degree-1 vertices, optionally
narrowed by a truthy legacy endpoint filter, which then also serves as
the forbidden-intermediate filter. -/
def getAllEndpointPaths (db : DB)
    (endpointF startF endF : Option MetaMap) : List PathInfo :=
  let g := createIgraph db
  let filtered := startF.isSome || endF.isSome
  let sIdxs :=
    if filtered then
      match startF with
      | none => []
      | some sf => (List.range g.coords.length).filter fun i => startOk db g sf i
    else
      let deg1 := (List.range g.coords.length).filter fun i => g.degree i == 1
      if truthy endpointF then
        deg1.filter fun i =>
          match firstActiveWithCoord db (g.coords.getD i (0, 0)) with
          | some p => matchesFilter p (endpointF.getD [])
          | none => false
      else deg1
  let eIdxs :=
    if filtered then
      match endF with
      | none => []
      | some ef => (List.range g.coords.length).filter fun i => endOk db g ef i
    else sIdxs
  let forbiddenF := if filtered then endF else endpointF
  sIdxs.flatMap fun si =>
    eIdxs.flatMap fun ei =>
      if si = ei then []
      else if filtered &&
          (match firstActiveWithCoord db (g.coords.getD si (0, 0)) with
            | some p => truthy endF && matchesFilter p (endF.getD [])
            | none => false) then []
      else
        ((getAllSimplePaths g si ei).filter fun p =>
            !(truthy forbiddenF &&
              pathHasForbiddenIntermediate db g p (forbiddenF.getD []))).map
          fun p => mkPathInfo g (g.coords.getD si (0, 0)) (g.coords.getD ei (0, 0)) p

/-! ### Concrete sessions used as test vectors -/

/-- Three collinear points at `0`, `1/10`, `3/20`: with margin `3/20`
the scan merges both later points into the first. -/
def threePointsDb : DB :=
  { points := [{ id := 1, x := 0, y := 0 }, { id := 2, x := 1/10, y := 0 },
      { id := 3, x := 3/20, y := 0 }],
    lines := [],
    nextLineId := 1 }

/-- Two distinct points sharing the coordinate `(0, 0)`. -/
def coincidentDb : DB :=
  { points := [{ id := 1, x := 0, y := 0 }, { id := 2, x := 0, y := 0 }],
    lines := [],
    nextLineId := 1 }

/-- A merge target of one call that a later, wider-margin call can
absorb: `(0,0)`, then two coincident points at `(5,0)`. -/
def chainDb : DB :=
  { points := [{ id := 1, x := 0, y := 0 }, { id := 2, x := 5, y := 0 },
      { id := 3, x := 5, y := 0 }],
    lines := [],
    nextLineId := 1 }

/-- Two coincident points plus a line starting at their shared
coordinate. -/
def mergeLineDb : DB :=
  { points := [{ id := 1, x := 0, y := 0 }, { id := 2, x := 0, y := 0 }],
    lines := [{ id := 1, x1 := 0, y1 := 0, x2 := 1, y2 := 0 }],
    nextLineId := 2 }

/-- Like `mergeLineDb` but with a point at the line's far endpoint, so
that every line endpoint is a root coordinate. -/
def endpointWitnessDb : DB :=
  { points := [{ id := 1, x := 0, y := 0 }, { id := 2, x := 0, y := 0 },
      { id := 3, x := 1, y := 0 }],
    lines := [{ id := 1, x1 := 0, y1 := 0, x2 := 1, y2 := 0 }],
    nextLineId := 2 }

/-- The spec's split test vector: a line `(0,0)-(10,0)` and active
points at `(2,0)`, `(5,0)`, `(8,0)`. -/
def splitDb : DB :=
  { points := [{ id := 1, x := 2, y := 0 }, { id := 2, x := 5, y := 0 },
      { id := 3, x := 8, y := 0 }],
    lines := [{ id := 1, x1 := 0, y1 := 0, x2 := 10, y2 := 0 }],
    nextLineId := 2 }

/-- A three-vertex path `(0,0) - (1,0) - (2,0)` whose middle vertex
carries `is_end = true` metadata. -/
def pathDb : DB :=
  { points := [{ id := 1, x := 0, y := 0 },
      { id := 2, x := 1, y := 0,
        metavar := some [("is_end", .scalar (.bool true))] },
      { id := 3, x := 2, y := 0 }],
    lines := [{ id := 1, x1 := 0, y1 := 0, x2 := 1, y2 := 0 },
      { id := 2, x1 := 1, y1 := 0, x2 := 2, y2 := 0 }],
    nextLineId := 3 }

/-! ### Invariant vocabulary for the merge engine -/

/-- How one point record may evolve during a `merge_nearby_points`
call: id and coordinate never change, and the merged flag can only go
from `false` to `true`. -/
def PtEvol (p q : Point) : Prop :=
  q.id = p.id ∧ q.x = p.x ∧ q.y = p.y ∧ (p.is_merged = true → q.is_merged = true)

/-- Coordinate of the point with a given id. -/
def coordOfId (db : DB) (x : ℕ) : Option Coord :=
  (db.findPoint x).map Point.coord

/-- Every point merged during the current call (it is merged now but
was a root in `db0`) points directly at a live root within distance
`margin`, whose id moreover is not among the still-unprocessed outer
ids `rem`. -/
def MergedOk (db0 : DB) (margin : ℚ) (rem : List ℕ) (db : DB) : Prop :=
  ∀ q ∈ db.points, db0.isActiveId q.id = true → q.is_merged = true →
    ∃ w ∈ db.points, q.merged_into_id = some w.id ∧ w.is_merged = false ∧
      distLe q.coord w.coord margin = true ∧ w.id ∉ rem

/-- Every line endpoint is the coordinate of some root point. -/
def EndpointInv (db : DB) : Prop :=
  ∀ l ∈ db.lines,
    (∃ p ∈ db.points, p.is_merged = false ∧ p.coord = l.startCoord) ∧
    (∃ p ∈ db.points, p.is_merged = false ∧ p.coord = l.endCoord)

instance : DecidablePred EndpointInv := fun db => by
  unfold EndpointInv; infer_instance

/-- The metadata-reconciliation half of a firing merge, pointwise on
the point table (`updPoint p1id`). -/
def metaFn (p1id : ℕ) (p2 p : Point) : Point :=
  if p.id == p1id then mergePointMetadata p p2 else p

/-- The mark-as-merged half of a firing merge, pointwise on the point
table (`updPoint p2id`). -/
def markFn (p1id p2id : ℕ) (q : Point) : Point :=
  if q.id == p2id then { q with is_merged := true, merged_into_id := some p1id } else q

/-- The combined pointwise effect of a firing merge on the point
table. -/
def fireFn (p1id p2id : ℕ) (p2 : Point) (p : Point) : Point :=
  markFn p1id p2id (metaFn p1id p2 p)

/-! ### Basic lemmas -/

theorem ptEvol_refl (p : Point) : PtEvol p p := ⟨rfl, rfl, rfl, id⟩

theorem PtEvol.trans {p q r : Point} (h1 : PtEvol p q) (h2 : PtEvol q r) :
    PtEvol p r :=
  ⟨h2.1.trans h1.1, h2.2.1.trans h1.2.1, h2.2.2.1.trans h1.2.2.1,
    fun h => h2.2.2.2 (h1.2.2.2 h)⟩

theorem ptEvol_coord {p q : Point} (h : PtEvol p q) : q.coord = p.coord := by
  simp [Point.coord, h.2.1, h.2.2.1]

theorem forall₂_ptEvol_refl (l : List Point) : List.Forall₂ PtEvol l l := by
  induction l with
  | nil => exact List.Forall₂.nil
  | cons p l ih => exact List.Forall₂.cons (ptEvol_refl p) ih

theorem forall₂_ptEvol_trans {l1 l2 l3 : List Point}
    (h1 : List.Forall₂ PtEvol l1 l2) (h2 : List.Forall₂ PtEvol l2 l3) :
    List.Forall₂ PtEvol l1 l3 := by
  induction h1 generalizing l3 with
  | nil => cases h2; exact List.Forall₂.nil
  | cons hpq _ ih =>
      cases h2 with
      | cons hqr h' => exact List.Forall₂.cons (hpq.trans hqr) (ih h')

theorem forall₂_ptEvol_map {l : List Point} {f : Point → Point}
    (hf : ∀ p, PtEvol p (f p)) : List.Forall₂ PtEvol l (l.map f) := by
  induction l with
  | nil => exact List.Forall₂.nil
  | cons p l ih => exact List.Forall₂.cons (hf p) ih

theorem forall₂_ptEvol_ids {l1 l2 : List Point}
    (h : List.Forall₂ PtEvol l1 l2) : l2.map Point.id = l1.map Point.id := by
  induction h with
  | nil => rfl
  | cons hpq _ ih => simp [ih, hpq.1]

/-- `find?` on id-related lists finds related entries (or fails on
both): the two lists have pointwise equal ids. -/
theorem findPoint_evol {l1 l2 : List Point}
    (h : List.Forall₂ PtEvol l1 l2) (x : ℕ) :
    (l1.find? (fun p => p.id == x) = none ∧
     l2.find? (fun p => p.id == x) = none) ∨
    ∃ p q, l1.find? (fun p => p.id == x) = some p ∧
      l2.find? (fun p => p.id == x) = some q ∧ PtEvol p q := by
  induction h with
  | nil => exact Or.inl ⟨rfl, rfl⟩
  | @cons p q l1' l2' hpq _ ih =>
      by_cases hid : p.id = x
      · right
        refine ⟨p, q, ?_, ?_, hpq⟩
        · exact List.find?_cons_of_pos _ (by simp [hid])
        · exact List.find?_cons_of_pos _ (by simp [hpq.1, hid])
      · have hq : q.id ≠ x := by rw [hpq.1]; exact hid
        have e1 : ((p :: l1').find? fun r => r.id == x) = l1'.find? fun r => r.id == x :=
          List.find?_cons_of_neg _ (by simp [hid])
        have e2 : ((q :: l2').find? fun r => r.id == x) = l2'.find? fun r => r.id == x :=
          List.find?_cons_of_neg _ (by simp [hq])
        rcases ih with ⟨h1, h2⟩ | ⟨p', q', h1, h2, h3⟩
        · exact Or.inl ⟨e1.trans h1, e2.trans h2⟩
        · exact Or.inr ⟨p', q', e1.trans h1, e2.trans h2, h3⟩

theorem coordOfId_evol {db1 db2 : DB}
    (h : List.Forall₂ PtEvol db1.points db2.points) (x : ℕ) :
    coordOfId db2 x = coordOfId db1 x := by
  unfold coordOfId DB.findPoint
  rcases findPoint_evol h x with ⟨h1, h2⟩ | ⟨p, q, h1, h2, h3⟩
  · rw [h1, h2]
  · rw [h1, h2]
    simp [ptEvol_coord h3]

/-- Each member of the evolved list comes from a related original. -/
theorem forall₂_ptEvol_mem {l1 l2 : List Point}
    (h : List.Forall₂ PtEvol l1 l2) {q : Point} (hq : q ∈ l2) :
    ∃ p ∈ l1, PtEvol p q := by
  induction h with
  | nil => cases hq
  | cons hpq' h' ih =>
      cases hq with
      | head => exact ⟨_, List.mem_cons_self .., hpq'⟩
      | tail _ hq =>
          obtain ⟨p, hp, h3⟩ := ih hq
          exact ⟨p, List.mem_cons_of_mem _ hp, h3⟩

/-- A point active later in the call was active earlier. -/
theorem isActiveId_evol_mono {db1 db2 : DB}
    (h : List.Forall₂ PtEvol db1.points db2.points) (x : ℕ)
    (hx : db2.isActiveId x = true) : db1.isActiveId x = true := by
  unfold DB.isActiveId at *
  rw [List.any_eq_true] at hx ⊢
  obtain ⟨q, hq, hq2⟩ := hx
  obtain ⟨p, hp, hpq⟩ := forall₂_ptEvol_mem h hq
  refine ⟨p, hp, ?_⟩
  simp only [Bool.and_eq_true, beq_iff_eq, Bool.not_eq_true'] at hq2 ⊢
  refine ⟨by rw [← hpq.1]; exact hq2.1, ?_⟩
  by_contra hm
  simp only [Bool.not_eq_false] at hm
  rw [hpq.2.2.2 hm] at hq2
  exact absurd hq2.2 (by simp)

theorem mergePointMetadata_fields (t s : Point) :
    (mergePointMetadata t s).id = t.id ∧ (mergePointMetadata t s).x = t.x ∧
    (mergePointMetadata t s).y = t.y ∧
    (mergePointMetadata t s).is_merged = t.is_merged ∧
    (mergePointMetadata t s).merged_into_id = t.merged_into_id := by
  cases h : s.metavar <;> simp [mergePointMetadata, h]

theorem mergeFire_points (db : DB) (a b : ℕ) (p1 p2 : Point) :
    (mergeFire db a b p1 p2).points = db.points.map (fireFn a b p2) := by
  simp only [mergeFire, DB.updPoint, List.map_map]
  rfl

theorem mergeFire_lines (db : DB) (a b : ℕ) (p1 p2 : Point) :
    (mergeFire db a b p1 p2).lines =
      db.lines.map fun l => l.updateEndpoint p2.coord p1.coord := rfl

theorem listAny_congr {α : Type} {l : List α} {p q : α → Bool}
    (h : ∀ a ∈ l, p a = q a) : l.any p = l.any q := by
  induction l with
  | nil => rfl
  | cons a l ih =>
      simp only [List.any_cons, h a (List.mem_cons_self ..),
        ih fun x hx => h x (List.mem_cons_of_mem _ hx)]

theorem metaFn_fields (aid : ℕ) (p2 p : Point) :
    (metaFn aid p2 p).id = p.id ∧ (metaFn aid p2 p).x = p.x ∧
    (metaFn aid p2 p).y = p.y ∧ (metaFn aid p2 p).is_merged = p.is_merged ∧
    (metaFn aid p2 p).merged_into_id = p.merged_into_id := by
  obtain ⟨h1, h2, h3, h4, h5⟩ := mergePointMetadata_fields p p2
  unfold metaFn
  by_cases h : p.id = aid
  · have c : (p.id == aid) = true := by simp [h]
    rw [c]
    exact ⟨h1, h2, h3, h4, h5⟩
  · have c : (p.id == aid) = false := by simp [h]
    rw [c]
    exact ⟨rfl, rfl, rfl, rfl, rfl⟩

theorem markFn_fields (aid bid : ℕ) (q : Point) :
    (markFn aid bid q).id = q.id ∧ (markFn aid bid q).x = q.x ∧
    (markFn aid bid q).y = q.y ∧
    (markFn aid bid q).is_merged = (if q.id = bid then true else q.is_merged) ∧
    (markFn aid bid q).merged_into_id =
      (if q.id = bid then some aid else q.merged_into_id) := by
  unfold markFn
  by_cases h : q.id = bid
  · have c : (q.id == bid) = true := by simp [h]
    rw [c]
    exact ⟨rfl, rfl, rfl, by simp [h], by simp [h]⟩
  · have c : (q.id == bid) = false := by simp [h]
    rw [c]
    exact ⟨rfl, rfl, rfl, by simp [h], by simp [h]⟩

theorem fireFn_fields (a b : ℕ) (p2 p : Point) :
    (fireFn a b p2 p).id = p.id ∧ (fireFn a b p2 p).x = p.x ∧
    (fireFn a b p2 p).y = p.y ∧
    (fireFn a b p2 p).is_merged = (if p.id = b then true else p.is_merged) ∧
    (fireFn a b p2 p).merged_into_id =
      (if p.id = b then some a else p.merged_into_id) := by
  obtain ⟨m1, m2, m3, m4, m5⟩ := metaFn_fields a p2 p
  obtain ⟨k1, k2, k3, k4, k5⟩ := markFn_fields a b (metaFn a p2 p)
  unfold fireFn
  refine ⟨k1.trans m1, k2.trans m2, k3.trans m3, ?_, ?_⟩
  · rw [k4, m1, m4]
  · rw [k5, m1, m5]

theorem fireFn_evol (a b : ℕ) (p2 p : Point) : PtEvol p (fireFn a b p2 p) := by
  obtain ⟨h1, h2, h3, h4, _⟩ := fireFn_fields a b p2 p
  refine ⟨h1, h2, h3, fun hm => ?_⟩
  rw [h4]
  by_cases hB : p.id = b <;> simp [hB, hm]

theorem mergeFire_evol (db : DB) (a b : ℕ) (p1 p2 : Point) :
    List.Forall₂ PtEvol db.points (mergeFire db a b p1 p2).points := by
  rw [mergeFire_points]
  exact forall₂_ptEvol_map (fireFn_evol a b p2)

theorem mergeFire_ids (db : DB) (a b : ℕ) (p1 p2 : Point) :
    (mergeFire db a b p1 p2).points.map Point.id = db.points.map Point.id :=
  forall₂_ptEvol_ids (mergeFire_evol db a b p1 p2)

/-- The fired merge leaves the active status of every id other than the
merged point's untouched. -/
theorem mergeFire_active_other (db : DB) (a b : ℕ) (p1 p2 : Point) (x : ℕ)
    (hx : x ≠ b) :
    (mergeFire db a b p1 p2).isActiveId x = db.isActiveId x := by
  rw [DB.isActiveId, DB.isActiveId, mergeFire_points, List.any_map]
  apply listAny_congr
  intro p _
  obtain ⟨h1, _, _, h4, _⟩ := fireFn_fields a b p2 p
  simp only [Function.comp, h1, h4]
  by_cases hpb : p.id = b
  · simp [hpb, Ne.symm hx]
  · simp [hpb]

/-- The fired merge deactivates the merged id. -/
theorem mergeFire_active_self (db : DB) (a b : ℕ) (p1 p2 : Point) :
    (mergeFire db a b p1 p2).isActiveId b = false := by
  rw [DB.isActiveId, mergeFire_points, List.any_map, List.any_eq_false]
  intro p _
  obtain ⟨h1, _, _, h4, _⟩ := fireFn_fields a b p2 p
  simp only [Function.comp, h1, h4]
  by_cases hpb : p.id = b
  · simp [hpb]
  · simp [hpb]


theorem findPoint_some {db : DB} {x : ℕ} {p : Point}
    (h : db.findPoint x = some p) : p ∈ db.points ∧ p.id = x := by
  refine ⟨List.mem_of_find?_eq_some h, ?_⟩
  have := List.find?_some h
  simpa using this

theorem find?_id_of_mem_nodup {l : List Point} (hn : (l.map Point.id).Nodup)
    {p : Point} (hp : p ∈ l) : l.find? (fun q => q.id == p.id) = some p := by
  induction l with
  | nil => cases hp
  | cons q l ih =>
      simp only [List.map_cons, List.nodup_cons] at hn
      cases hp with
      | head => exact List.find?_cons_of_pos _ (by simp)
      | tail _ hp =>
          have hq : q.id ≠ p.id := by
            intro he
            exact hn.1 (he ▸ List.mem_map_of_mem Point.id hp)
          rw [List.find?_cons_of_neg _ (by simp [hq])]
          exact ih hn.2 hp

theorem findPoint_of_mem_nodup {db : DB} (hn : (db.points.map Point.id).Nodup)
    {p : Point} (hp : p ∈ db.points) : db.findPoint p.id = some p :=
  find?_id_of_mem_nodup hn hp

/-- With unique ids, a merged record's id is not active. -/
theorem not_active_of_merged_nodup {db : DB}
    (hn : (db.points.map Point.id).Nodup) {q : Point} (hq : q ∈ db.points)
    (hm : q.is_merged = true) : db.isActiveId q.id = false := by
  rw [DB.isActiveId, List.any_eq_false]
  intro p hp
  simp only [Bool.and_eq_true, beq_iff_eq, Bool.not_eq_true', not_and]
  intro hid
  have : p = q := List.inj_on_of_nodup_map hn hp hq hid
  rw [this, hm]
  simp

/-- An active id resolves, under unique ids, to an unmerged record. -/
theorem findPoint_active {db : DB} (hn : (db.points.map Point.id).Nodup)
    {x : ℕ} (hx : db.isActiveId x = true) :
    ∃ p, db.findPoint x = some p ∧ p.is_merged = false ∧ p.id = x := by
  rw [DB.isActiveId, List.any_eq_true] at hx
  obtain ⟨p, hp, hpx⟩ := hx
  simp only [Bool.and_eq_true, beq_iff_eq, Bool.not_eq_true'] at hpx
  refine ⟨p, ?_, hpx.2, hpx.1⟩
  rw [← hpx.1]
  exact findPoint_of_mem_nodup hn hp

theorem fireFn_coord (a b : ℕ) (p2 p : Point) :
    (fireFn a b p2 p).coord = p.coord := by
  obtain ⟨_, h2, h3, _, _⟩ := fireFn_fields a b p2 p
  simp [Point.coord, h2, h3]

theorem distLe_symm (c d : Coord) (m : ℚ) : distLe c d m = distLe d c m := by
  unfold distLe dist2
  ring_nf

/-- The two endpoints of `update_endpoint` after the call: each is
rewritten exactly when it equalled the old coordinate. -/
theorem updateEndpoint_startCoord (l : Line) (oldc newc : Coord) :
    (l.updateEndpoint oldc newc).startCoord =
      if l.startCoord = oldc then newc else l.startCoord := by
  unfold Line.updateEndpoint Line.startCoord
  by_cases h1 : l.x1 = oldc.1 ∧ l.y1 = oldc.2 <;>
    by_cases h2 : l.x2 = oldc.1 ∧ l.y2 = oldc.2 <;>
    simp [Prod.ext_iff, h1, h2]

theorem updateEndpoint_endCoord (l : Line) (oldc newc : Coord) :
    (l.updateEndpoint oldc newc).endCoord =
      if l.endCoord = oldc then newc else l.endCoord := by
  unfold Line.updateEndpoint Line.endCoord
  by_cases h1 : l.x1 = oldc.1 ∧ l.y1 = oldc.2 <;>
    by_cases h2 : l.x2 = oldc.1 ∧ l.y2 = oldc.2 <;>
    simp [Prod.ext_iff, h1, h2]

/-- Common setup of a firing merge inside the scan: the session has the
original ids, `point1` resolves to a root `p1`, `point2` to a root
`p2`, within margin, `a ≠ b`. -/
structure FireSetup (db0 : DB) (m : ℚ) (db : DB) (a b : ℕ) (p1 p2 : Point) : Prop where
  hn0 : (db0.points.map Point.id).Nodup
  hids : db.points.map Point.id = db0.points.map Point.id
  hfa : db.findPoint a = some p1
  hfb : db.findPoint b = some p2
  hp1m : p1.is_merged = false
  hp2m : p2.is_merged = false
  hdist : distLe p1.coord p2.coord m = true
  hab : a ≠ b

theorem FireSetup.hn {db0 m db a b p1 p2} (s : FireSetup db0 m db a b p1 p2) :
    (db.points.map Point.id).Nodup := s.hids ▸ s.hn0

theorem FireSetup.p1_mem {db0 m db a b p1 p2} (s : FireSetup db0 m db a b p1 p2) :
    p1 ∈ db.points ∧ p1.id = a := findPoint_some s.hfa

theorem FireSetup.p2_mem {db0 m db a b p1 p2} (s : FireSetup db0 m db a b p1 p2) :
    p2 ∈ db.points ∧ p2.id = b := findPoint_some s.hfb

/-- After the fire, `p1`'s image is still a root carrying `p1`'s id and
coordinate. -/
theorem FireSetup.p1_witness {db0 m db a b p1 p2} (s : FireSetup db0 m db a b p1 p2) :
    fireFn a b p2 p1 ∈ (mergeFire db a b p1 p2).points ∧
    (fireFn a b p2 p1).id = a ∧ (fireFn a b p2 p1).is_merged = false ∧
    (fireFn a b p2 p1).coord = p1.coord := by
  obtain ⟨hmem, hid⟩ := s.p1_mem
  obtain ⟨f1, _, _, f4, _⟩ := fireFn_fields a b p2 p1
  refine ⟨?_, f1.trans hid, ?_, fireFn_coord a b p2 p1⟩
  · rw [mergeFire_points]
    exact List.mem_map_of_mem _ hmem
  · rw [f4, hid, if_neg s.hab]
    exact s.hp1m

/-- A point of the table whose id is `b` is `p2` itself. -/
theorem FireSetup.eq_p2 {db0 m db a b p1 p2} (s : FireSetup db0 m db a b p1 p2)
    {p : Point} (hp : p ∈ db.points) (hid : p.id = b) : p = p2 :=
  List.inj_on_of_nodup_map s.hn hp s.p2_mem.1 (by rw [hid, s.p2_mem.2])

/-- `MergedOk` is preserved by a firing merge, provided the merged id is
still unprocessed (`b ∈ rem`) and the target is not (`a ∉ rem`). -/
theorem mergedOk_fire {db0 : DB} {m : ℚ} {db : DB} {a b : ℕ} {p1 p2 : Point}
    (s : FireSetup db0 m db a b p1 p2) {rem : List ℕ}
    (hbrem : b ∈ rem) (harem : a ∉ rem)
    (hmok : MergedOk db0 m rem db) :
    MergedOk db0 m rem (mergeFire db a b p1 p2) := by
  intro q' hq' hact0 hmerged
  rw [mergeFire_points] at hq'
  obtain ⟨p, hp, rfl⟩ := List.mem_map.mp hq'
  obtain ⟨f1, _, _, f4, f5⟩ := fireFn_fields a b p2 p
  by_cases hpb : p.id = b
  · -- the newly merged point: its target is p1's image
    obtain ⟨w1, w2, w3, w4⟩ := s.p1_witness
    refine ⟨fireFn a b p2 p1, w1, ?_, w3, ?_, ?_⟩
    · rw [f5, if_pos hpb, w2]
    · rw [fireFn_coord, w4, s.eq_p2 hp hpb, distLe_symm]
      exact s.hdist
    · rw [w2]; exact harem
  · -- a previously merged point keeps its witness
    rw [f4, if_neg hpb] at hmerged
    rw [f1] at hact0
    obtain ⟨w, hw, hw1, hw2, hw3, hw4⟩ := hmok p hp hact0 hmerged
    have hwb : w.id ≠ b := fun he => hw4 (he ▸ hbrem)
    obtain ⟨g1, _, _, g4, _⟩ := fireFn_fields a b p2 w
    refine ⟨fireFn a b p2 w, ?_, ?_, ?_, ?_, ?_⟩
    · rw [mergeFire_points]; exact List.mem_map_of_mem _ hw
    · rw [f5, if_neg hpb, hw1, g1]
    · rw [g4, if_neg hwb]; exact hw2
    · rw [fireFn_coord, fireFn_coord]; exact hw3
    · rw [g1]; exact hw4

/-- `EndpointInv` is preserved by a firing merge. -/
theorem endpointInv_fire {db0 : DB} {m : ℚ} {db : DB} {a b : ℕ} {p1 p2 : Point}
    (s : FireSetup db0 m db a b p1 p2)
    (hep : EndpointInv db) : EndpointInv (mergeFire db a b p1 p2) := by
  intro l' hl'
  rw [mergeFire_lines] at hl'
  obtain ⟨l, hl, rfl⟩ := List.mem_map.mp hl'
  obtain ⟨hs, he⟩ := hep l hl
  obtain ⟨w1, w2, w3, w4⟩ := s.p1_witness
  constructor
  · rw [updateEndpoint_startCoord]
    by_cases hc : l.startCoord = p2.coord
    · rw [if_pos hc]
      exact ⟨fireFn a b p2 p1, w1, w3, w4⟩
    · rw [if_neg hc]
      obtain ⟨w, hw, hwm, hwc⟩ := hs
      have hwb : w.id ≠ b := by
        intro he'
        exact hc (by rw [← hwc, s.eq_p2 hw he'])
      obtain ⟨g1, _, _, g4, _⟩ := fireFn_fields a b p2 w
      refine ⟨fireFn a b p2 w, ?_, ?_, ?_⟩
      · rw [mergeFire_points]; exact List.mem_map_of_mem _ hw
      · rw [g4, if_neg hwb]; exact hwm
      · rw [fireFn_coord]; exact hwc
  · rw [updateEndpoint_endCoord]
    by_cases hc : l.endCoord = p2.coord
    · rw [if_pos hc]
      exact ⟨fireFn a b p2 p1, w1, w3, w4⟩
    · rw [if_neg hc]
      obtain ⟨w, hw, hwm, hwc⟩ := he
      have hwb : w.id ≠ b := by
        intro he'
        exact hc (by rw [← hwc, s.eq_p2 hw he'])
      obtain ⟨g1, _, _, g4, _⟩ := fireFn_fields a b p2 w
      refine ⟨fireFn a b p2 w, ?_, ?_, ?_⟩
      · rw [mergeFire_points]; exact List.mem_map_of_mem _ hw
      · rw [g4, if_neg hwb]; exact hwm
      · rw [fireFn_coord]; exact hwc

/-- Invariants through the inner loop of `merge_nearby_points`,
scanning the tail `todo ⊆ rest` with `point1 = a`:
the table only evolves along `PtEvol`, `a` stays a root, `MergedOk` and
(conditionally) `EndpointInv` are maintained, and every point of `todo`
still active afterwards is out of margin of `a`. -/
theorem inner_spec (m : ℚ) (db0 : DB) (a : ℕ) (rest : List ℕ)
    (hn0 : (db0.points.map Point.id).Nodup) (harest : a ∉ rest)
    (hrest_ex : ∀ x ∈ rest, x ∈ db0.points.map Point.id) :
    ∀ (todo : List ℕ) (st : DB × List ℕ),
    (∀ x ∈ todo, x ∈ rest) →
    List.Forall₂ PtEvol db0.points st.1.points →
    st.1.isActiveId a = true →
    MergedOk db0 m rest st.1 →
    (EndpointInv db0 → EndpointInv st.1) →
    List.Forall₂ PtEvol st.1.points (todo.foldl (mergeStep m a) st).1.points ∧
    (todo.foldl (mergeStep m a) st).1.isActiveId a = true ∧
    List.Forall₂ PtEvol db0.points (todo.foldl (mergeStep m a) st).1.points ∧
    MergedOk db0 m rest (todo.foldl (mergeStep m a) st).1 ∧
    (EndpointInv db0 → EndpointInv (todo.foldl (mergeStep m a) st).1) ∧
    (∀ b ∈ todo, (todo.foldl (mergeStep m a) st).1.isActiveId b = true →
      ∀ ca cb, coordOfId db0 a = some ca → coordOfId db0 b = some cb →
        distLe ca cb m = false) := by
  intro todo
  induction todo with
  | nil =>
      intro st _ hevol0 ha hmok hep
      exact ⟨forall₂_ptEvol_refl _, ha, hevol0, hmok, hep, by simp⟩
  | cons b todo' ih =>
      intro st htodo hevol0 ha hmok hep
      have hsub' : ∀ x ∈ todo', x ∈ rest :=
        fun x hx => htodo x (List.mem_cons_of_mem _ hx)
      have hbrest : b ∈ rest := htodo b (List.mem_cons_self ..)
      have hn : (st.1.points.map Point.id).Nodup :=
        (forall₂_ptEvol_ids hevol0) ▸ hn0
      obtain ⟨p1, hfa, hp1m, hp1id⟩ := findPoint_active hn ha
      have hab : a ≠ b := fun he => harest (he ▸ hbrest)
      have hbex : b ∈ st.1.points.map Point.id := by
        rw [forall₂_ptEvol_ids hevol0]
        exact hrest_ex b hbrest
      obtain ⟨p2, hp2mem, hp2id⟩ : ∃ p ∈ st.1.points, p.id = b := by
        obtain ⟨p, hp, he⟩ := List.mem_map.mp hbex
        exact ⟨p, hp, he⟩
      have hfb : st.1.findPoint b = some p2 := hp2id ▸ findPoint_of_mem_nodup hn hp2mem
      rw [List.foldl_cons]
      by_cases hm2 : p2.is_merged = true
      · -- skipped: point2 already merged
        have hstep : mergeStep m a st b = st := by
          unfold mergeStep
          rw [hfa, hfb]
          simp [hm2]
        rw [hstep]
        obtain ⟨c1, c2, c3, c4, c5, c6⟩ := ih st hsub' hevol0 ha hmok hep
        refine ⟨c1, c2, c3, c4, c5, ?_⟩
        intro b' hb' hact
        cases hb' with
        | head =>
            exfalso
            have hib : st.1.isActiveId b = false := by
              have := not_active_of_merged_nodup hn hp2mem hm2
              rwa [hp2id] at this
            have := isActiveId_evol_mono c1 b hact
            rw [hib] at this
            cases this
        | tail _ hb' => exact c6 b' hb' hact
      · have hm2' : p2.is_merged = false := by
          cases h : p2.is_merged
          · rfl
          · exact absurd h hm2
        by_cases hd : distLe p1.coord p2.coord m = true
        · -- the merge fires
          have hstep : mergeStep m a st b = (mergeFire st.1 a b p1 p2, st.2 ++ [b]) := by
            unfold mergeStep
            rw [hfa, hfb]
            simp [hm2', hd]
          rw [hstep]
          have s : FireSetup db0 m st.1 a b p1 p2 :=
            ⟨hn0, forall₂_ptEvol_ids hevol0, hfa, hfb, hp1m, hm2', hd, hab⟩
          have hevol1 : List.Forall₂ PtEvol db0.points (mergeFire st.1 a b p1 p2).points :=
            forall₂_ptEvol_trans hevol0 (mergeFire_evol ..)
          have ha1 : (mergeFire st.1 a b p1 p2).isActiveId a = true := by
            rw [mergeFire_active_other _ _ _ _ _ _ hab]
            exact ha
          have hmok1 := mergedOk_fire s hbrest harest hmok
          have hep1 : EndpointInv db0 → EndpointInv (mergeFire st.1 a b p1 p2) :=
            fun h => endpointInv_fire s (hep h)
          obtain ⟨c1, c2, c3, c4, c5, c6⟩ :=
            ih (mergeFire st.1 a b p1 p2, st.2 ++ [b]) hsub' hevol1 ha1 hmok1 hep1
          refine ⟨forall₂_ptEvol_trans (mergeFire_evol ..) c1, c2, c3, c4, c5, ?_⟩
          intro b' hb' hact
          cases hb' with
          | head =>
              exfalso
              have := isActiveId_evol_mono c1 b hact
              rw [mergeFire_active_self] at this
              cases this
          | tail _ hb' => exact c6 b' hb' hact
        · -- out of margin: nothing happens, and that is the recorded fact
          have hstep : mergeStep m a st b = st := by
            unfold mergeStep
            rw [hfa, hfb]
            simp [hm2', hd]
          rw [hstep]
          obtain ⟨c1, c2, c3, c4, c5, c6⟩ := ih st hsub' hevol0 ha hmok hep
          refine ⟨c1, c2, c3, c4, c5, ?_⟩
          intro b' hb' hact ca cb hca hcb
          cases hb' with
          | head =>
              have hca' : coordOfId st.1 a = some ca := by
                rw [coordOfId_evol hevol0]; exact hca
              have hcb' : coordOfId st.1 b = some cb := by
                rw [coordOfId_evol hevol0]; exact hcb
              rw [coordOfId, hfa] at hca'
              rw [coordOfId, hfb] at hcb'
              simp only [Option.map_some', Option.some_inj] at hca' hcb'
              rw [← hca', ← hcb']
              cases h : distLe p1.coord p2.coord m
              · rfl
              · exact absurd h hd
          | tail _ hb' => exact c6 b' hb' hact ca cb hca hcb

theorem mergedOk_weaken {db0 : DB} {m : ℚ} {rem rem' : List ℕ} {db : DB}
    (hsub : ∀ x ∈ rem', x ∈ rem) (hm : MergedOk db0 m rem db) :
    MergedOk db0 m rem' db := by
  intro q hq h1 h2
  obtain ⟨w, hw, hw1, hw2, hw3, hw4⟩ := hm q hq h1 h2
  exact ⟨w, hw, hw1, hw2, hw3, fun hx => hw4 (hsub _ hx)⟩

/-- Invariants through the outer loop of `merge_nearby_points`: the
table evolves along `PtEvol`, every point merged by the call points at
a live in-margin root, `EndpointInv` is preserved, and whenever two
scanned ids are both still active at the end, their distance exceeds
the margin. -/
theorem outer_spec (m : ℚ) (db0 : DB)
    (hn0 : (db0.points.map Point.id).Nodup) :
    ∀ (ids : List ℕ) (st : DB × List ℕ),
    ids.Nodup →
    (∀ x ∈ ids, x ∈ db0.points.map Point.id) →
    List.Forall₂ PtEvol db0.points st.1.points →
    MergedOk db0 m ids st.1 →
    (EndpointInv db0 → EndpointInv st.1) →
    List.Forall₂ PtEvol st.1.points (mergeOuter m ids st).1.points ∧
    List.Forall₂ PtEvol db0.points (mergeOuter m ids st).1.points ∧
    MergedOk db0 m [] (mergeOuter m ids st).1 ∧
    (EndpointInv db0 → EndpointInv (mergeOuter m ids st).1) ∧
    List.Pairwise (fun x y =>
      (mergeOuter m ids st).1.isActiveId x = true →
      (mergeOuter m ids st).1.isActiveId y = true →
      ∀ cx cy, coordOfId db0 x = some cx → coordOfId db0 y = some cy →
        distLe cx cy m = false) ids := by
  intro ids
  induction ids with
  | nil =>
      intro st _ _ hevol0 hmok hep
      exact ⟨forall₂_ptEvol_refl _, hevol0, hmok, hep, List.Pairwise.nil⟩
  | cons a ids' ih =>
      intro st hnd hin hevol0 hmok hep
      have hnd' : ids'.Nodup := (List.nodup_cons.mp hnd).2
      have hanotin : a ∉ ids' := (List.nodup_cons.mp hnd).1
      have hin' : ∀ x ∈ ids', x ∈ db0.points.map Point.id :=
        fun x hx => hin x (List.mem_cons_of_mem _ hx)
      have hsub : ∀ x ∈ ids', x ∈ a :: ids' := fun x hx => List.mem_cons_of_mem _ hx
      have hn : (st.1.points.map Point.id).Nodup :=
        (forall₂_ptEvol_ids hevol0) ▸ hn0
      obtain ⟨p1, hp1mem, hp1id⟩ : ∃ p ∈ st.1.points, p.id = a := by
        have : a ∈ st.1.points.map Point.id := by
          rw [forall₂_ptEvol_ids hevol0]
          exact hin a (List.mem_cons_self ..)
        obtain ⟨p, hp, he⟩ := List.mem_map.mp this
        exact ⟨p, hp, he⟩
      have hfa : st.1.findPoint a = some p1 :=
        hp1id ▸ findPoint_of_mem_nodup hn hp1mem
      by_cases hm1 : p1.is_merged = true
      · -- point1 was merged by an earlier outer iteration: skipped
        have hstep : mergeOuter m (a :: ids') st = mergeOuter m ids' st := by
          conv_lhs => rw [mergeOuter]
          rw [hfa]
          simp [hm1]
        rw [hstep]
        obtain ⟨d1, d2, d3, d4, d5⟩ :=
          ih st hnd' hin' hevol0 (mergedOk_weaken hsub hmok) hep
        refine ⟨d1, d2, d3, d4, List.Pairwise.cons ?_ d5⟩
        intro y _ hxa _ _ _ _ _
        exfalso
        have hia : st.1.isActiveId a = false := by
          have := not_active_of_merged_nodup hn hp1mem hm1
          rwa [hp1id] at this
        have := isActiveId_evol_mono d1 a hxa
        rw [hia] at this
        cases this
      · have hm1' : p1.is_merged = false := by
          cases h : p1.is_merged
          · rfl
          · exact absurd h hm1
        have hstep : mergeOuter m (a :: ids') st =
            mergeOuter m ids' (ids'.foldl (mergeStep m a) st) := by
          conv_lhs => rw [mergeOuter]
          rw [hfa]
          simp [hm1']
        rw [hstep]
        have ha : st.1.isActiveId a = true := by
          rw [DB.isActiveId, List.any_eq_true]
          exact ⟨p1, hp1mem, by simp [hp1id, hm1']⟩
        obtain ⟨c1, c2, c3, c4, c5, c6⟩ :=
          inner_spec m db0 a ids' hn0 hanotin hin' ids' st (fun x hx => hx)
            hevol0 ha (mergedOk_weaken hsub hmok) hep
        obtain ⟨d1, d2, d3, d4, d5⟩ :=
          ih (ids'.foldl (mergeStep m a) st) hnd' hin' c3 c4 c5
        refine ⟨forall₂_ptEvol_trans c1 d1, d2, d3, d4,
          List.Pairwise.cons ?_ d5⟩
        intro y hy _ hya cx cy hcx hcy
        have : (ids'.foldl (mergeStep m a) st).1.isActiveId y = true :=
          isActiveId_evol_mono d1 y hya
        exact c6 y hy this cx cy hcx hcy

theorem activeIds_sublist (db : DB) :
    List.Sublist (db.activePoints.map Point.id) (db.points.map Point.id) :=
  (List.filter_sublist _).map Point.id

theorem active_of_mem_activeIds {db : DB} {x : ℕ}
    (hx : x ∈ db.activePoints.map Point.id) : db.isActiveId x = true := by
  obtain ⟨p, hp, he⟩ := List.mem_map.mp hx
  rw [DB.activePoints, List.mem_filter] at hp
  rw [DB.isActiveId, List.any_eq_true]
  exact ⟨p, hp.1, by simp [he, hp.2]⟩

/-- Top-level invariants of one `merge_nearby_points` call. -/
theorem mergeNearbyPoints_spec (db : DB) (m : ℚ) (hwf : db.WF) :
    List.Forall₂ PtEvol db.points (mergeNearbyPoints db m).1.points ∧
    MergedOk db m [] (mergeNearbyPoints db m).1 ∧
    (EndpointInv db → EndpointInv (mergeNearbyPoints db m).1) ∧
    List.Pairwise (fun x y =>
      (mergeNearbyPoints db m).1.isActiveId x = true →
      (mergeNearbyPoints db m).1.isActiveId y = true →
      ∀ cx cy, coordOfId db x = some cx → coordOfId db y = some cy →
        distLe cx cy m = false) (db.activePoints.map Point.id) := by
  have hn0 := hwf.1
  have hmok0 : MergedOk db m (db.activePoints.map Point.id) db := by
    intro q hq h1 h2
    exact absurd h1 (by rw [not_active_of_merged_nodup hn0 hq h2]; simp)
  obtain ⟨c1, c2, c3, c4, c5⟩ :=
    outer_spec m db hn0 (db.activePoints.map Point.id) (db, [])
      ((activeIds_sublist db).nodup hn0)
      (fun x hx => (activeIds_sublist db).mem hx)
      (forall₂_ptEvol_refl _) hmok0 id
  exact ⟨c1, c3, c4, c5⟩

/-- The inner loop does nothing when `point1` is out of margin of every
scanned point. -/
theorem innerFold_id (m : ℚ) (a : ℕ) {p1 : Point} :
    ∀ (todo : List ℕ) (db : DB) (acc : List ℕ),
    db.findPoint a = some p1 →
    (∀ x ∈ todo, ∀ p, db.findPoint x = some p →
      distLe p1.coord p.coord m = false) →
    todo.foldl (mergeStep m a) (db, acc) = (db, acc) := by
  intro todo
  induction todo with
  | nil => intro db acc _ _; rfl
  | cons b todo' ih =>
      intro db acc hfa hfar
      rw [List.foldl_cons]
      have hstep : mergeStep m a (db, acc) b = (db, acc) := by
        unfold mergeStep
        cases hfb : DB.findPoint db b with
        | none => rw [hfa]
        | some p2 =>
            rw [hfa]
            cases hm2 : p2.is_merged with
            | true => simp [hm2]
            | false =>
                have hd := hfar b (List.mem_cons_self ..) p2 hfb
                simp [hm2, hd]
      rw [hstep]
      exact ih db acc hfa fun x hx => hfar x (List.mem_cons_of_mem _ hx)

/-- The whole scan does nothing when every scanned id is a root and all
scanned pairs are out of margin. -/
theorem mergeOuter_id (m : ℚ) :
    ∀ (ids : List ℕ) (db : DB) (acc : List ℕ),
    (∀ x ∈ ids, ∃ p, db.findPoint x = some p ∧ p.is_merged = false) →
    List.Pairwise (fun x y => ∀ p q, db.findPoint x = some p →
      db.findPoint y = some q → distLe p.coord q.coord m = false) ids →
    mergeOuter m ids (db, acc) = (db, acc) := by
  intro ids
  induction ids with
  | nil => intro db acc _ _; rfl
  | cons a ids' ih =>
      intro db acc hact hfar
      obtain ⟨p1, hfa, hp1⟩ := hact a (List.mem_cons_self ..)
      rw [List.pairwise_cons] at hfar
      have hinner : ids'.foldl (mergeStep m a) (db, acc) = (db, acc) :=
        innerFold_id m a ids' db acc hfa
          fun x hx p hp => hfar.1 x hx p1 p hfa hp
      conv_lhs => rw [mergeOuter]
      rw [hfa]
      simp only [hp1, Bool.false_eq_true, if_false, hinner]
      exact ih db acc (fun x hx => hact x (List.mem_cons_of_mem _ hx)) hfar.2

/-- Active snapshot ids only shrink along `PtEvol`, keeping their
order. -/
theorem evol_active_sublist {l1 l2 : List Point}
    (h : List.Forall₂ PtEvol l1 l2) :
    List.Sublist ((l2.filter fun p => !p.is_merged).map Point.id)
      ((l1.filter fun p => !p.is_merged).map Point.id) := by
  induction h with
  | nil => exact List.Sublist.refl _
  | @cons p q l1' l2' hpq _ ih =>
      rw [List.filter_cons, List.filter_cons]
      cases hq : q.is_merged with
      | false =>
          have hp : p.is_merged = false := by
            cases hp' : p.is_merged
            · rfl
            · rw [hpq.2.2.2 hp'] at hq; cases hq
          simp only [hq, hp, Bool.not_false, if_true, List.map_cons, hpq.1]
          exact ih.cons₂ p.id
      | true =>
          simp only [hq, Bool.not_true, Bool.false_eq_true, if_false]
          cases hp' : p.is_merged with
          | true => simpa [hp'] using ih
          | false =>
              simp only [hp', Bool.not_false, if_true, List.map_cons]
              exact ih.cons p.id

/-- Idempotence: right after one merge call, no surviving pair is
within margin, so a second call does nothing. -/
theorem merge_idempotent (db : DB) (m : ℚ) (hwf : db.WF) :
    mergeNearbyPoints (mergeNearbyPoints db m).1 m =
      ((mergeNearbyPoints db m).1, []) := by
  obtain ⟨hevol, _, _, hpair⟩ := mergeNearbyPoints_spec db m hwf
  have hn' : ((mergeNearbyPoints db m).1.points.map Point.id).Nodup :=
    (forall₂_ptEvol_ids hevol) ▸ hwf.1
  show mergeOuter m ((mergeNearbyPoints db m).1.activePoints.map Point.id)
      ((mergeNearbyPoints db m).1, []) = ((mergeNearbyPoints db m).1, [])
  apply mergeOuter_id
  · intro x hx
    obtain ⟨p, h1, h2, _⟩ := findPoint_active hn' (active_of_mem_activeIds hx)
    exact ⟨p, h1, h2⟩
  · have hsub : List.Sublist
        ((mergeNearbyPoints db m).1.activePoints.map Point.id)
        (db.activePoints.map Point.id) := evol_active_sublist hevol
    refine (hpair.sublist hsub).imp_of_mem ?_
    intro x y hxm hym hr p q hfp hfq
    have hax := active_of_mem_activeIds hxm
    have hay := active_of_mem_activeIds hym
    have hcx : coordOfId db x = some p.coord := by
      rw [← coordOfId_evol hevol x, coordOfId, hfp]
      rfl
    have hcy : coordOfId db y = some q.coord := by
      rw [← coordOfId_evol hevol y, coordOfId, hfq]
      rfl
    exact hr hax hay p.coord q.coord hcx hcy

theorem distLe_neg {m : ℚ} (h : m < 0) (a b : Coord) : distLe a b m = false := by
  simp [distLe, not_le.mpr h]

theorem distLe_zero_iff (a b : Coord) : distLe a b 0 = true ↔ a = b := by
  constructor
  · intro h
    simp only [distLe, Bool.and_eq_true, decide_eq_true_eq] at h
    have h2 := h.2
    rw [dist2] at h2
    have e1 : (a.1 - b.1) ^ 2 = 0 := by nlinarith [sq_nonneg (a.1 - b.1), sq_nonneg (a.2 - b.2)]
    have e2 : (a.2 - b.2) ^ 2 = 0 := by nlinarith [sq_nonneg (a.1 - b.1), sq_nonneg (a.2 - b.2)]
    have f1 : a.1 = b.1 := by nlinarith [sq_nonneg (a.1 - b.1)]
    have f2 : a.2 = b.2 := by nlinarith [sq_nonneg (a.2 - b.2)]
    exact Prod.ext f1 f2
  · intro h
    subst h
    simp [distLe, dist2]

theorem pairwise_total {α : Type} {R : α → α → Prop} (h : ∀ x y, R x y) :
    ∀ l : List α, l.Pairwise R
  | [] => .nil
  | a :: l => .cons (fun y _ => h a y) (pairwise_total h l)

/-- Membership of a root point's id in the scan snapshot. -/
theorem mem_activeIds_of_root {db : DB} {p : Point} (hp : p ∈ db.points)
    (hpm : p.is_merged = false) : p.id ∈ db.activePoints.map Point.id :=
  List.mem_map_of_mem _ (List.mem_filter.mpr ⟨hp, by simp [hpm]⟩)

theorem isActiveId_of_root {db : DB} {p : Point} (hp : p ∈ db.points)
    (hpm : p.is_merged = false) : db.isActiveId p.id = true := by
  rw [DB.isActiveId, List.any_eq_true]
  exact ⟨p, hp, by simp [hpm]⟩

/-- Two roots within margin cannot both survive a
`merge_nearby_points` call. -/
theorem pair_not_both_active (db : DB) (m : ℚ) (hwf : db.WF)
    {p q : Point} (hp : p ∈ db.points) (hq : q ∈ db.points)
    (hpm : p.is_merged = false) (hqm : q.is_merged = false)
    (hne : p.id ≠ q.id) (hd : distLe p.coord q.coord m = true) :
    ¬((mergeNearbyPoints db m).1.isActiveId p.id = true ∧
      (mergeNearbyPoints db m).1.isActiveId q.id = true) := by
  obtain ⟨hevol, _, _, hpair⟩ := mergeNearbyPoints_spec db m hwf
  rintro ⟨hap, haq⟩
  have hsymm : Symmetric (fun x y =>
      (mergeNearbyPoints db m).1.isActiveId x = true →
      (mergeNearbyPoints db m).1.isActiveId y = true →
      ∀ cx cy, coordOfId db x = some cx → coordOfId db y = some cy →
        distLe cx cy m = false) := by
    intro x y hxy hay hax cy cx hcy hcx
    rw [distLe_symm]
    exact hxy hax hay cx cy hcx hcy
  have hR := (hpair.forall hsymm)
    (mem_activeIds_of_root hp hpm) (mem_activeIds_of_root hq hqm) hne
  have hcp : coordOfId db p.id = some p.coord := by
    rw [coordOfId, findPoint_of_mem_nodup hwf.1 hp]
    rfl
  have hcq : coordOfId db q.id = some q.coord := by
    rw [coordOfId, findPoint_of_mem_nodup hwf.1 hq]
    rfl
  have := hR hap haq p.coord q.coord hcp hcq
  rw [hd] at this
  cases this

/-! ### Claim C1 -/

/-- C1 (counterexample): with points `(0,0)`, `(1/10,0)`, `(3/20,0)` and
margin `3/20`, the pair `P1 = (1/10,0)`, `P2 = (3/20,0)` are both roots
within margin before the call, yet after `merge_nearby_points` BOTH are
non-root (each was merged into `(0,0)`), so "exactly one of P1 and P2
is non-root" is false as stated. -/
theorem c1_exactly_one_counterexample :
    distLe ((1:ℚ)/10, 0) (3/20, 0) (3/20) = true ∧
    threePointsDb.isActiveId 2 = true ∧
    threePointsDb.isActiveId 3 = true ∧
    (mergeNearbyPoints threePointsDb (3/20)).1.isActiveId 2 = false ∧
    (mergeNearbyPoints threePointsDb (3/20)).1.isActiveId 3 = false := by
  decide

/-- C1 (amended): for two roots `P1`, `P2` within margin, after
`merge_nearby_points` AT LEAST one of them is non-root (both can be,
when each was merged into a third point), and every one of the pair
that became non-root has `merged_into` set directly to a point that is
a root at the end of the call. -/
theorem mergeNearbyPoints_pair_merge (db : DB) (m : ℚ) (hwf : db.WF)
    (p q : Point) (hp : p ∈ db.points) (hq : q ∈ db.points)
    (hpm : p.is_merged = false) (hqm : q.is_merged = false)
    (hne : p.id ≠ q.id) (hd : distLe p.coord q.coord m = true) :
    ¬((mergeNearbyPoints db m).1.isActiveId p.id = true ∧
      (mergeNearbyPoints db m).1.isActiveId q.id = true) ∧
    ∀ r ∈ (mergeNearbyPoints db m).1.points,
      (r.id = p.id ∨ r.id = q.id) → r.is_merged = true →
      ∃ w ∈ (mergeNearbyPoints db m).1.points,
        r.merged_into_id = some w.id ∧ w.is_merged = false := by
  refine ⟨pair_not_both_active db m hwf hp hq hpm hqm hne hd, ?_⟩
  intro r hr hor hrm
  have hact : db.isActiveId r.id = true := by
    rcases hor with h | h
    · rw [h]; exact isActiveId_of_root hp hpm
    · rw [h]; exact isActiveId_of_root hq hqm
  obtain ⟨w, hw, h1, h2, _, _⟩ :=
    (mergeNearbyPoints_spec db m hwf).2.1 r hr hact hrm
  exact ⟨w, hw, h1, h2⟩

/-- C1 (witness): the amended claim at the concrete three-point
session. -/
theorem mergeNearbyPoints_pair_merge_witness :
    ¬((mergeNearbyPoints threePointsDb (3/20)).1.isActiveId 2 = true ∧
      (mergeNearbyPoints threePointsDb (3/20)).1.isActiveId 3 = true) ∧
    ∀ r ∈ (mergeNearbyPoints threePointsDb (3/20)).1.points,
      (r.id = 2 ∨ r.id = 3) → r.is_merged = true →
      ∃ w ∈ (mergeNearbyPoints threePointsDb (3/20)).1.points,
        r.merged_into_id = some w.id ∧ w.is_merged = false :=
  mergeNearbyPoints_pair_merge threePointsDb (3/20) (by decide)
    { id := 2, x := 1/10, y := 0 } { id := 3, x := 3/20, y := 0 }
    (by decide) (by decide) (by decide) (by decide) (by decide) (by decide)

/-! ### Claim C4 -/

/-- C4: a second `merge_nearby_points` call with the same (indeed any)
margin, immediately after a first call with no mutation in between,
merges nothing: it returns the empty list. -/
theorem mergeNearbyPoints_second_call_empty (db : DB) (m : ℚ) (hwf : db.WF) :
    (mergeNearbyPoints (mergeNearbyPoints db m).1 m).2 = [] := by
  rw [merge_idempotent db m hwf]

/-- C4 (witness): the second call on the three-point session returns
the empty list. -/
theorem mergeNearbyPoints_second_call_empty_witness :
    (mergeNearbyPoints (mergeNearbyPoints threePointsDb (3/20)).1 (3/20)).2 = [] :=
  mergeNearbyPoints_second_call_empty threePointsDb (3/20) (by decide)

/-! ### Claim C9 -/

/-- C9 (counterexample): point 3 is merged into point 2 by a first call
(margin 0); a later call with margin 10 merges point 2 itself into
point 1, so a merge target IS merged by a later call and point 3's
`merged_into` chain (3 → 2 → 1) now has length greater than one. -/
theorem c9_later_call_counterexample :
    ((mergeNearbyPoints chainDb 0).1.findPoint 3).map Point.merged_into_id =
      some (some 2) ∧
    ((mergeNearbyPoints chainDb 0).1.findPoint 2).map Point.is_merged =
      some false ∧
    ((mergeNearbyPoints (mergeNearbyPoints chainDb 0).1 10).1.findPoint 2).map
      Point.is_merged = some true ∧
    ((mergeNearbyPoints (mergeNearbyPoints chainDb 0).1 10).1.findPoint 3).map
      Point.merged_into_id = some (some 2) := by
  decide

/-- C9 (amended): WITHIN one call, every point the call merges has
`merged_into` set directly to a point that is a root at the end of that
call (so no chain created by a single call has length greater than one,
and a point that received a merge is never itself merged later in the
same call); a later call with a different margin can still merge a
former target. -/
theorem merge_targets_root (db : DB) (m : ℚ) (hwf : db.WF) :
    ∀ q ∈ (mergeNearbyPoints db m).1.points, db.isActiveId q.id = true →
      q.is_merged = true →
      ∃ w ∈ (mergeNearbyPoints db m).1.points,
        q.merged_into_id = some w.id ∧ w.is_merged = false ∧
        distLe q.coord w.coord m = true := by
  intro q hq h1 h2
  obtain ⟨w, hw, a1, a2, a3, _⟩ :=
    (mergeNearbyPoints_spec db m hwf).2.1 q hq h1 h2
  exact ⟨w, hw, a1, a2, a3⟩

/-- C9 (witness): the merged point 2 of the three-point session points
at a root within margin. -/
theorem merge_targets_root_witness :
    ∃ w ∈ (mergeNearbyPoints threePointsDb (3/20)).1.points,
      (some 1 : Option ℕ) = some w.id ∧ w.is_merged = false ∧
      distLe ((1:ℚ)/10, 0) w.coord (3/20) = true :=
  merge_targets_root threePointsDb (3/20) (by decide)
    { id := 2, x := 1/10, y := 0, is_merged := true, merged_into_id := some 1 }
    (by decide) (by decide) (by decide)

/-! ### Claim C5 -/

/-- C5 (counterexample): two coincident roots at `(0,0)` and a line
starting at `(0,0)`; after `merge_nearby_points(0)` point 2 is merged
(non-root) with coordinate `(0,0)`, yet the line still has an endpoint
equal to `(0,0)` — a line endpoint CAN equal a merged point's
coordinate when that coordinate is shared with a root. -/
theorem c5_merged_coordinate_counterexample :
    ((mergeNearbyPoints mergeLineDb 0).1.findPoint 2).map Point.is_merged =
      some true ∧
    ((mergeNearbyPoints mergeLineDb 0).1.findPoint 2).map Point.coord =
      some (0, 0) ∧
    (mergeNearbyPoints mergeLineDb 0).1.lines.map Line.startCoord = [(0, 0)] := by
  decide

/-- C5 (amended): `update_endpoint` rewrites exactly the endpoints
equal to the old coordinate (so at the moment P2 is merged into P1,
every line endpoint equal to P2's coordinate is rewritten to P1's
coordinate), and consequently, if every line endpoint initially equals
some root point's coordinate, this is still true after the call; the
original "no line references a merged point's coordinate" fails only in
that an endpoint may equal a merged point's coordinate when a root
shares that coordinate. -/
theorem merge_endpoint_consistency (db : DB) (m : ℚ) (hwf : db.WF)
    (hep : EndpointInv db) :
    EndpointInv (mergeNearbyPoints db m).1 ∧
    ∀ (l : Line) (oldc newc : Coord),
      (l.updateEndpoint oldc newc).startCoord =
        (if l.startCoord = oldc then newc else l.startCoord) ∧
      (l.updateEndpoint oldc newc).endCoord =
        (if l.endCoord = oldc then newc else l.endCoord) :=
  ⟨(mergeNearbyPoints_spec db m hwf).2.2.1 hep,
    fun l oldc newc =>
      ⟨updateEndpoint_startCoord l oldc newc, updateEndpoint_endCoord l oldc newc⟩⟩

/-- C5 (witness): endpoint consistency on a session where the line's
endpoints are both root coordinates. -/
theorem merge_endpoint_consistency_witness :
    EndpointInv (mergeNearbyPoints endpointWitnessDb 0).1 :=
  (merge_endpoint_consistency endpointWitnessDb 0 (by decide) (by decide)).1

/-! ### Claim C7 -/

/-- C7 (counterexample): "margin ≤ 0 performs no merges" is false: with
margin exactly 0 and two points at identical coordinates, the call does
merge (returns a non-empty list). -/
theorem c7_zero_margin_counterexample :
    (0:ℚ) ≤ 0 ∧ (mergeNearbyPoints coincidentDb 0).2 ≠ [] := by
  decide

/-- C7 (amended): a NEGATIVE margin performs no merges (the comparison
`distance <= margin`, a non-strict `≤`, can never hold); an empty
active point set returns the empty list; and with margin exactly 0 the
merged pairs are exactly those at identical coordinates: every point
merged by the call points at a root with the same coordinate, and two
distinct coincident roots never both survive. -/
theorem merge_margin_edge (db : DB) (m : ℚ) (hwf : db.WF) :
    (m < 0 → mergeNearbyPoints db m = (db, [])) ∧
    (db.activePoints = [] → mergeNearbyPoints db m = (db, [])) ∧
    (∀ q ∈ (mergeNearbyPoints db 0).1.points, db.isActiveId q.id = true →
      q.is_merged = true →
      ∃ w ∈ (mergeNearbyPoints db 0).1.points,
        q.merged_into_id = some w.id ∧ w.is_merged = false ∧
        w.coord = q.coord) ∧
    (∀ p ∈ db.points, ∀ q ∈ db.points, p.is_merged = false →
      q.is_merged = false → p.id ≠ q.id → p.coord = q.coord →
      ¬((mergeNearbyPoints db 0).1.isActiveId p.id = true ∧
        (mergeNearbyPoints db 0).1.isActiveId q.id = true)) := by
  refine ⟨?_, ?_, ?_, ?_⟩
  · intro hm
    show mergeOuter m (db.activePoints.map Point.id) (db, []) = (db, [])
    refine mergeOuter_id m (db.activePoints.map Point.id) db [] ?_ ?_
    · intro x hx
      obtain ⟨p, h1, h2, _⟩ :=
        findPoint_active hwf.1 (active_of_mem_activeIds hx)
      exact ⟨p, h1, h2⟩
    · apply pairwise_total
      intro x y
      intro p q h1 h2
      exact distLe_neg hm p.coord q.coord
  · intro h
    show mergeOuter m (db.activePoints.map Point.id) (db, []) = (db, [])
    rw [h]
    rfl
  · intro q hq h1 h2
    obtain ⟨w, hw, a1, a2, a3, _⟩ :=
      (mergeNearbyPoints_spec db 0 hwf).2.1 q hq h1 h2
    refine ⟨w, hw, a1, a2, ?_⟩
    have := (distLe_zero_iff q.coord w.coord).mp a3
    rw [this]
  · intro p hp q hq hpm hqm hne hcoord
    exact pair_not_both_active db 0 hwf hp hq hpm hqm hne
      ((distLe_zero_iff p.coord q.coord).mpr hcoord)

/-- C7 (witness): the amended edge-case behavior at the coincident
two-point session with margin `-1`. -/
theorem merge_margin_edge_witness :
    mergeNearbyPoints coincidentDb (-1) = (coincidentDb, []) :=
  (merge_margin_edge coincidentDb (-1) (by decide)).1 (by norm_num)

/-! ### Claim C2 -/

theorem metaGet_metaSet_self (mm : MetaMap) (k : String) (v : Value) :
    metaGet (metaSet mm k v) k = some v := by
  unfold metaSet
  by_cases h : mm.any (fun kv => kv.1 == k) = true
  · rw [if_pos h]
    unfold metaGet
    induction mm with
    | nil => cases h
    | cons kv0 rest ih =>
        by_cases h0 : kv0.1 = k
        · simp [List.find?_cons_of_pos, h0]
        · rw [List.map_cons, if_neg (by simp [h0]),
            List.find?_cons_of_neg _ (by simp [h0])]
          apply ih
          simpa [List.any_cons, h0] using h
  · rw [if_neg h]
    unfold metaGet
    rw [Bool.not_eq_true, List.any_eq_false] at h
    induction mm with
    | nil => simp [List.find?]
    | cons kv0 rest ih =>
        rw [List.cons_append,
          List.find?_cons_of_neg _ (by simpa using h kv0 (List.mem_cons_self ..))]
        exact ih fun kv hkv => h kv (List.mem_cons_of_mem _ hkv)

theorem metaGet_metaSet_other (mm : MetaMap) (k k' : String) (v : Value)
    (hne : k' ≠ k) : metaGet (metaSet mm k v) k' = metaGet mm k' := by
  unfold metaSet
  by_cases h : mm.any (fun kv => kv.1 == k) = true
  · rw [if_pos h]
    unfold metaGet
    clear h
    induction mm with
    | nil => rfl
    | cons kv0 rest ih =>
        rw [List.map_cons]
        by_cases h0 : kv0.1 = k
        · rw [if_pos (by simp [h0]),
            List.find?_cons_of_neg _ (by simp [Ne.symm hne]),
            List.find?_cons_of_neg _ (by simp [h0, Ne.symm hne])]
          exact ih
        · rw [if_neg (by simp [h0])]
          by_cases h1 : kv0.1 = k'
          · rw [List.find?_cons_of_pos _ (by simp [h1]),
              List.find?_cons_of_pos _ (by simp [h1])]
          · rw [List.find?_cons_of_neg _ (by simp [h1]),
              List.find?_cons_of_neg _ (by simp [h1])]
            exact ih
  · rw [if_neg h]
    unfold metaGet
    rw [Bool.not_eq_true, List.any_eq_false] at h
    induction mm with
    | nil =>
        have hkk : (k == k') = false := by simp [Ne.symm hne]
        simp [List.find?, hkk]
    | cons kv0 rest ih =>
        by_cases h1 : kv0.1 = k'
        · rw [List.cons_append, List.find?_cons_of_pos _ (by simp [h1]),
            List.find?_cons_of_pos _ (by simp [h1])]
        · rw [List.cons_append, List.find?_cons_of_neg _ (by simp [h1]),
            List.find?_cons_of_neg _ (by simp [h1])]
          exact ih fun kv hkv => h kv (List.mem_cons_of_mem _ hkv)

theorem metaGet_step_other (acc : MetaMap) (kv : String × Value) (k : String)
    (h : kv.1 ≠ k) : metaGet (metaMergeStep acc kv) k = metaGet acc k := by
  unfold metaMergeStep
  cases metaGet acc kv.1 <;> exact metaGet_metaSet_other _ _ _ _ (Ne.symm h)

theorem metaGet_fold_stable :
    ∀ (sm acc : MetaMap) (k : String), (∀ kv ∈ sm, kv.1 ≠ k) →
    metaGet (sm.foldl metaMergeStep acc) k = metaGet acc k := by
  intro sm
  induction sm with
  | nil => intro acc k _; rfl
  | cons kv0 rest ih =>
      intro acc k h
      rw [List.foldl_cons,
        ih _ k fun kv hkv => h kv (List.mem_cons_of_mem _ hkv),
        metaGet_step_other _ _ _ (h kv0 (List.mem_cons_self ..))]

/-- The reconciliation walk at a key present on both sides produces the
`_merge_metadata_values` of the two original values. -/
theorem metaGet_fold_merge :
    ∀ (sm acc : MetaMap) (k : String) (ev nv : Value),
    (sm.map Prod.fst).Nodup → metaGet acc k = some ev → (k, nv) ∈ sm →
    metaGet (sm.foldl metaMergeStep acc) k =
      some (mergeMetadataValues k ev nv) := by
  intro sm
  induction sm with
  | nil => intro acc k ev nv _ _ hmem; cases hmem
  | cons kv0 rest ih =>
      intro acc k ev nv hnd hev hmem
      rw [List.map_cons, List.nodup_cons] at hnd
      rw [List.foldl_cons]
      by_cases h0 : kv0.1 = k
      · have hnv : kv0 = (k, nv) := by
          cases hmem with
          | head => rfl
          | tail _ hmem' =>
              exact absurd (h0 ▸ List.mem_map_of_mem Prod.fst hmem') hnd.1
        have hstep : metaMergeStep acc kv0 =
            metaSet acc k (mergeMetadataValues k ev nv) := by
          rw [hnv]
          unfold metaMergeStep
          simp only
          rw [hev]
        rw [hstep, metaGet_fold_stable _ _ k ?_, metaGet_metaSet_self]
        intro kv hkv he
        apply hnd.1
        rw [h0, ← he]
        exact List.mem_map_of_mem Prod.fst hkv
      · have hmem' : (k, nv) ∈ rest := by
          cases hmem with
          | head => exact absurd rfl h0
          | tail _ hmem' => exact hmem'
        apply ih _ k ev nv hnd.2 _ hmem'
        rw [metaGet_step_other _ _ _ h0]
        exact hev

/-- For a key present on both points, `_merge_point_metadata` stores
exactly `_merge_metadata_values` of the two original values. -/
theorem mergePointMetadata_lookup (t s : Point) (sm tm : MetaMap)
    (k : String) (ev nv : Value) (hs : s.metavar = some sm)
    (ht : t.metavar = some tm) (hnd : (sm.map Prod.fst).Nodup)
    (hev : metaGet tm k = some ev) (hnv : (k, nv) ∈ sm) :
    ∃ tm', (mergePointMetadata t s).metavar = some tm' ∧
      metaGet tm' k = some (mergeMetadataValues k ev nv) := by
  refine ⟨sm.foldl metaMergeStep tm, ?_, ?_⟩
  · unfold mergePointMetadata
    rw [hs]
    simp [ht]
  · exact metaGet_fold_merge sm tm k ev nv hnd hev hnv

/-- C2 (counterexample): "beds" is none of the claim's special keys
(`capacity`, `emergency`, `name`, `type`) and the values conflict, so
the claim as stated demands that P1's existing value 2 be kept; the
code instead takes the maximum 5, because its maximize class also
contains `priority_level`, `area` and `beds`. -/
theorem c2_default_case_counterexample :
    mergeMetadataValues "beds" (.scalar (.int 2)) (.scalar (.int 5)) =
      .scalar (.int 5) ∧
    Value.scalar (Scalar.int 5) ≠ Value.scalar (Scalar.int 2) ∧
    ("beds" : String) ≠ "capacity" ∧ ("beds" : String) ≠ "emergency" ∧
    ("beds" : String) ≠ "name" ∧ ("beds" : String) ≠ "type" := by
  decide

/-- C2 (amended): the reconciliation table of
`_merge_metadata_values`, with the full key classes of the code:
list values concatenate with first-seen-order dedup; numeric values
(Python bools included) on a key of the maximize class {capacity,
priority_level, area, beds} take the maximum (the existing value on
ties); two booleans on a key of the any-true class {emergency, parking,
traffic_light} take the logical OR; two differing strings on a key in
{name, type} join with " / "; in every other case — all three
conditions false — P1's existing value is kept, and in particular a
list merged with a non-list keeps the existing value.  For a key
present on both points, `_merge_point_metadata` stores exactly this
reconciled value. -/
theorem mergeMetadataValues_table (k : String) (l1 l2 : List Scalar)
    (a b : Scalar) (x y : Bool) (s1 s2 : String) (t s : Point)
    (sm tm : MetaMap) (ev nv : Value) :
    (mergeMetadataValues k (.list l1) (.list l2) =
      .list (pyDedup (l1 ++ l2))) ∧
    (a.isNumber = true → b.isNumber = true → k ∈ maximizeKeys →
      mergeMetadataValues k (.scalar a) (.scalar b) =
        .scalar (if a.toRat < b.toRat then b else a)) ∧
    (k ∈ anyTrueKeys →
      mergeMetadataValues k (.scalar (.bool x)) (.scalar (.bool y)) =
        .scalar (.bool (x || y))) ∧
    (k ∈ concatKeys → s1 ≠ s2 →
      mergeMetadataValues k (.scalar (.str s1)) (.scalar (.str s2)) =
        .scalar (.str (s1 ++ " / " ++ s2))) ∧
    ((a.isNumber && b.isNumber && maximizeKeys.contains k) = false →
      (a.isBool && b.isBool && anyTrueKeys.contains k) = false →
      (a.isStr && b.isStr && decide (a ≠ b) && concatKeys.contains k) = false →
      mergeMetadataValues k (.scalar a) (.scalar b) = .scalar a) ∧
    (mergeMetadataValues k (.list l1) (.scalar a) = .list l1) ∧
    (mergeMetadataValues k (.scalar a) (.list l1) = .scalar a) ∧
    (s.metavar = some sm → t.metavar = some tm → (sm.map Prod.fst).Nodup →
      metaGet tm k = some ev → (k, nv) ∈ sm →
      ∃ tm', (mergePointMetadata t s).metavar = some tm' ∧
        metaGet tm' k = some (mergeMetadataValues k ev nv)) := by
  refine ⟨rfl, ?_, ?_, ?_, ?_, rfl, rfl, ?_⟩
  · intro h1 h2 h3
    simp [mergeMetadataValues, h1, h2, h3]
  · intro h
    have h' : k = "emergency" ∨ k = "parking" ∨ k = "traffic_light" := by
      simpa [anyTrueKeys] using h
    rcases h' with rfl | rfl | rfl <;> rfl
  · intro h hne
    have hne' : Scalar.str s1 ≠ Scalar.str s2 := by simpa using hne
    have h' : k = "name" ∨ k = "type" := by simpa [concatKeys] using h
    rcases h' with rfl | rfl <;>
      simp [mergeMetadataValues, hne', Scalar.isNumber, Scalar.isBool,
        Scalar.isStr, maximizeKeys, anyTrueKeys, concatKeys]
  · intro c1 c2 c3
    simp only [mergeMetadataValues, c1, c2, c3]
    rfl
  · exact fun hs ht hnd hev hnv =>
      mergePointMetadata_lookup t s sm tm k ev nv hs ht hnd hev hnv

/-- C2 (witness): the reconciliation table at concrete inputs —
`capacity` takes the max, `emergency` takes the OR, differing `name`
strings join, and an unlisted string key keeps the existing value. -/
theorem mergeMetadataValues_table_witness :
    mergeMetadataValues "capacity" (.scalar (.int 100)) (.scalar (.int 150)) =
      .scalar (.int 150) ∧
    mergeMetadataValues "emergency" (.scalar (.bool false)) (.scalar (.bool true)) =
      .scalar (.bool true) ∧
    mergeMetadataValues "name" (.scalar (.str "a")) (.scalar (.str "b")) =
      .scalar (.str "a / b") ∧
    mergeMetadataValues "color" (.scalar (.str "a")) (.scalar (.str "b")) =
      .scalar (.str "a") := by
  refine ⟨?_, ?_, ?_, ?_⟩
  · have h := (mergeMetadataValues_table "capacity" [] [] (.int 100) (.int 150)
      false false "" "" { id := 0, x := 0, y := 0 } { id := 0, x := 0, y := 0 }
      [] [] (.scalar (.int 0)) (.scalar (.int 0))).2.1 rfl rfl (by decide)
    rw [h]
    norm_num [Scalar.toRat]
  · have h := (mergeMetadataValues_table "emergency" [] [] (.int 0) (.int 0)
      false true "" "" { id := 0, x := 0, y := 0 } { id := 0, x := 0, y := 0 }
      [] [] (.scalar (.int 0)) (.scalar (.int 0))).2.2.1 (by decide)
    exact h
  · have h := (mergeMetadataValues_table "name" [] [] (.int 0) (.int 0)
      false false "a" "b" { id := 0, x := 0, y := 0 } { id := 0, x := 0, y := 0 }
      [] [] (.scalar (.int 0)) (.scalar (.int 0))).2.2.2.1 (by decide) (by decide)
    exact h
  · have h := (mergeMetadataValues_table "color" [] [] (.str "a") (.str "b")
      false false "" "" { id := 0, x := 0, y := 0 } { id := 0, x := 0, y := 0 }
      [] [] (.scalar (.int 0)) (.scalar (.int 0))).2.2.2.2.1
      (by decide) (by decide) (by decide)
    exact h

/-! ### Claims C3 and C10 -/

/-- C3: on the spec's split test vector — one active line
`(0,0)-(10,0)`, active points `(2,0)`, `(5,0)`, `(8,0)`, tolerance
`1/10` — `split_lines_on_points` creates exactly the four segments
`(0,0)-(2,0)`, `(2,0)-(5,0)`, `(5,0)-(8,0)`, `(8,0)-(10,0)`, in order
of projected distance along the original line from its start, and the
original line gets `is_split = true`, leaving the active line set. -/
theorem splitLinesOnPoints_test_vector :
    (splitLinesOnPoints splitDb (1/10)).2.map
        (fun l => (l.startCoord, l.endCoord)) =
      [((0,0),(2,0)), ((2,0),(5,0)), ((5,0),(8,0)), ((8,0),(10,0))] ∧
    (splitLinesOnPoints splitDb (1/10)).2.length = 4 ∧
    ((splitLinesOnPoints splitDb (1/10)).1.lines.map
        fun l => (l.id, l.is_split)) =
      [(1, true), (2, false), (3, false), (4, false), (5, false)] ∧
    ((splitLinesOnPoints splitDb (1/10)).1.activeLines.map Line.id) =
      [2, 3, 4, 5] := by
  decide

theorem addSegments_shape :
    ∀ (cs : List Coord) (db : DB),
    ∀ l ∈ (addSegments db cs).2, l.metavar = none ∧ l.is_split = false := by
  intro cs
  induction cs with
  | nil => intro db l hl; cases hl
  | cons c1 rest ih =>
      intro db l hl
      cases rest with
      | nil => cases hl
      | cons c2 rest' =>
          rw [addSegments] at hl
          simp only [DB.addLine] at hl
          cases hl with
          | head => exact ⟨rfl, rfl⟩
          | tail _ hl' => exact ih _ l hl'

theorem addSegments_lines :
    ∀ (cs : List Coord) (db : DB),
    (addSegments db cs).1.lines = db.lines ++ (addSegments db cs).2 := by
  intro cs
  induction cs with
  | nil => intro db; simp [addSegments]
  | cons c1 rest ih =>
      intro db
      cases rest with
      | nil => simp [addSegments]
      | cons c2 rest' =>
          rw [addSegments]
          simp only [DB.addLine]
          rw [ih]
          simp

/-- The fields of an original line other than `is_split` never change
during `split_lines_on_points`, and new lines carry no metadata. -/
theorem splitStep_frame (pts : List Point) (tol : ℚ) (db0 : DB) :
    ∀ (st : DB × List Line) (l : Line),
    (∀ l' ∈ st.2, l'.metavar = none ∧ l'.is_split = false) →
    db0.lines.length ≤ st.1.lines.length →
    List.Forall₂ (fun a b => b.id = a.id ∧ b.x1 = a.x1 ∧ b.y1 = a.y1 ∧
      b.x2 = a.x2 ∧ b.y2 = a.y2 ∧ b.metavar = a.metavar)
      db0.lines (st.1.lines.take db0.lines.length) →
    (∀ l' ∈ (splitStep pts tol st l).2, l'.metavar = none ∧ l'.is_split = false) ∧
    db0.lines.length ≤ (splitStep pts tol st l).1.lines.length ∧
    List.Forall₂ (fun a b => b.id = a.id ∧ b.x1 = a.x1 ∧ b.y1 = a.y1 ∧
      b.x2 = a.x2 ∧ b.y2 = a.y2 ∧ b.metavar = a.metavar)
      db0.lines ((splitStep pts tol st l).1.lines.take db0.lines.length) := by
  intro st l hshape hlen hevol
  unfold splitStep
  by_cases hpol : (pointsOnLine pts l tol).isEmpty = true
  · simp only [hpol, if_true]
    exact ⟨hshape, hlen, hevol⟩
  · simp only [hpol, Bool.false_eq_true, if_false]
    set db1 := st.1.updLine l.id fun l0 => { l0 with is_split := true } with hdb1
    set allPts := sortByKey (projKey l)
      (l.startCoord :: ((pointsOnLine pts l tol).map Point.coord ++ [l.endCoord]))
    have hlen1 : db1.lines.length = st.1.lines.length := by
      rw [hdb1]
      simp [DB.updLine]
    have hevol1 : List.Forall₂ (fun a b => b.id = a.id ∧ b.x1 = a.x1 ∧
        b.y1 = a.y1 ∧ b.x2 = a.x2 ∧ b.y2 = a.y2 ∧ b.metavar = a.metavar)
        db0.lines (db1.lines.take db0.lines.length) := by
      rw [hdb1]
      simp only [DB.updLine]
      rw [← List.map_take]
      rw [List.forall₂_map_right_iff]
      refine hevol.imp ?_
      intro a b hab
      cases hc : (b.id == l.id) with
      | false =>
          simp only [hc, Bool.false_eq_true, if_false]
          exact hab
      | true =>
          simp only [hc, if_true]
          exact hab
    refine ⟨?_, ?_, ?_⟩
    · intro l' hl'
      rcases List.mem_append.mp hl' with h | h
      · exact hshape l' h
      · exact addSegments_shape allPts db1 l' h
    · calc db0.lines.length ≤ db1.lines.length := hlen1 ▸ hlen
        _ ≤ (addSegments db1 allPts).1.lines.length := by
            rw [addSegments_lines]
            simp
    · rw [addSegments_lines,
        List.take_append_of_le_length (hlen1 ▸ hlen)]
      exact hevol1

/-- C10: every line created by `split_lines_on_points` starts with no
metadata and `is_split = false` (only its endpoint coordinates are
set), and each original line keeps its id, endpoints and metadata —
only `is_split` may change. -/
theorem splitLinesOnPoints_frame (db : DB) (tol : ℚ) :
    (∀ l ∈ (splitLinesOnPoints db tol).2,
        l.metavar = none ∧ l.is_split = false) ∧
    List.Forall₂ (fun a b => b.id = a.id ∧ b.x1 = a.x1 ∧ b.y1 = a.y1 ∧
      b.x2 = a.x2 ∧ b.y2 = a.y2 ∧ b.metavar = a.metavar)
      db.lines ((splitLinesOnPoints db tol).1.lines.take db.lines.length) := by
  have hrefl : List.Forall₂ (fun a b => b.id = a.id ∧ b.x1 = a.x1 ∧
      b.y1 = a.y1 ∧ b.x2 = a.x2 ∧ b.y2 = a.y2 ∧ b.metavar = a.metavar)
      db.lines (db.lines.take db.lines.length) := by
    rw [List.take_length]
    induction db.lines with
    | nil => exact List.Forall₂.nil
    | cons a l ih => exact List.Forall₂.cons ⟨rfl, rfl, rfl, rfl, rfl, rfl⟩ ih
  unfold splitLinesOnPoints
  by_cases hc : (db.activePoints.isEmpty || db.activeLines.isEmpty) = true
  · simp only [hc, if_true]
    exact ⟨fun l hl => absurd hl (List.not_mem_nil l), hrefl⟩
  · simp only [hc, Bool.false_eq_true, if_false]
    have main : ∀ (todo : List Line) (st : DB × List Line),
        (∀ l' ∈ st.2, l'.metavar = none ∧ l'.is_split = false) →
        db.lines.length ≤ st.1.lines.length →
        List.Forall₂ (fun a b => b.id = a.id ∧ b.x1 = a.x1 ∧ b.y1 = a.y1 ∧
          b.x2 = a.x2 ∧ b.y2 = a.y2 ∧ b.metavar = a.metavar)
          db.lines (st.1.lines.take db.lines.length) →
        (∀ l' ∈ (todo.foldl (splitStep db.activePoints tol) st).2,
            l'.metavar = none ∧ l'.is_split = false) ∧
        List.Forall₂ (fun a b => b.id = a.id ∧ b.x1 = a.x1 ∧ b.y1 = a.y1 ∧
          b.x2 = a.x2 ∧ b.y2 = a.y2 ∧ b.metavar = a.metavar)
          db.lines ((todo.foldl (splitStep db.activePoints tol) st).1.lines.take
            db.lines.length) := by
      intro todo
      induction todo with
      | nil => intro st h1 _ h3; exact ⟨h1, h3⟩
      | cons l todo' ih =>
          intro st h1 h2 h3
          obtain ⟨g1, g2, g3⟩ := splitStep_frame db.activePoints tol db st l h1 h2 h3
          rw [List.foldl_cons]
          exact ih _ g1 g2 g3
    exact main db.activeLines (db, [])
      (fun l hl => absurd hl (List.not_mem_nil l)) le_rfl hrefl

/-! ### Claims C6 and C8 -/

theorem lastIdx_eq_none {coords : List Coord} {c : Coord} (h : c ∉ coords) :
    lastIdx coords c = none := by
  induction coords with
  | nil => rfl
  | cons a as ih =>
      rw [lastIdx, ih fun hm => h (List.mem_cons_of_mem _ hm)]
      have hac : (a == c) = false := by
        simp only [beq_eq_false_iff_ne, ne_eq]
        intro he
        exact h (he ▸ List.mem_cons_self ..)
      rw [hac]
      rfl

/-- C8: a path query whose start or end coordinate is not the
coordinate of any vertex of the derived graph returns the empty list
(and, the functions being total, no error). -/
theorem pathsBetween_unresolved (db : DB) (sc ec : Coord)
    (af : Option MetaMap)
    (h : sc ∉ (createIgraph db).coords ∨ ec ∉ (createIgraph db).coords) :
    getPathsBetweenEndpoints db sc ec af = [] := by
  have hred : getPathsBetweenEndpoints db sc ec af =
      match lastIdx (createIgraph db).coords sc,
        lastIdx (createIgraph db).coords ec with
      | some si, some ei =>
          ((getAllSimplePaths (createIgraph db) si ei).filter fun p =>
            !(truthy af &&
              pathHasForbiddenIntermediate db (createIgraph db) p (af.getD []))).map
            fun p => mkPathInfo (createIgraph db) sc ec p
      | _, _ => [] := rfl
  rw [hred]
  rcases h with h | h
  · rw [lastIdx_eq_none h]
  · rw [lastIdx_eq_none h]
    cases lastIdx (createIgraph db).coords sc <;> rfl

/-- C8 (witness): an unresolved start coordinate on the concrete path
session. -/
theorem pathsBetween_unresolved_witness :
    getPathsBetweenEndpoints pathDb (5, 5) (2, 0) none = [] :=
  pathsBetween_unresolved pathDb (5, 5) (2, 0) none (Or.inl (by decide))

theorem simplePathsAux_head_last (g : NetGraph) (t : ℕ) :
    ∀ (fuel u : ℕ) (vis : List ℕ) (p : List ℕ),
    p ∈ simplePathsAux g t fuel u vis →
    p.head? = some u ∧ p.getLast? = some t := by
  intro fuel
  induction fuel with
  | zero => intro u vis p hp; cases hp
  | succ n ih =>
      intro u vis p hp
      rw [simplePathsAux] at hp
      by_cases hu : u = t
      · rw [if_pos hu] at hp
        have : p = [u] := by simpa using hp
        subst this
        exact ⟨rfl, by simp [hu]⟩
      · rw [if_neg hu] at hp
        obtain ⟨v, _, hpm⟩ := List.mem_flatMap.mp hp
        obtain ⟨p', hp', rfl⟩ := List.mem_map.mp hpm
        obtain ⟨h1, h2⟩ := ih v (u :: vis) p' hp'
        refine ⟨rfl, ?_⟩
        cases p' with
        | nil => cases h1
        | cons w p'' => rw [List.getLast?_cons_cons]; exact h2

theorem truthy_of_ne {f : MetaMap} (hf : f ≠ []) : truthy (some f) = true := by
  cases f with
  | nil => exact absurd rfl hf
  | cons kv rest => rfl

theorem intermediates_of_short {l : List ℕ} (h : l.length ≤ 2) :
    intermediates l = [] := by
  match l with
  | [] => rfl
  | [_] => rfl
  | [_, _] => rfl
  | _ :: _ :: _ :: _ => simp at h

theorem pathHasForbidden_false_intermediates {db : DB} {g : NetGraph}
    {p : List ℕ} {f : MetaMap}
    (h : pathHasForbiddenIntermediate db g p f = false) :
    ∀ idx ∈ intermediates p, forbiddenVertex db g idx f = false := by
  unfold pathHasForbiddenIntermediate at h
  by_cases hl : p.length ≤ 2
  · rw [intermediates_of_short hl]
    intro idx hidx
    cases hidx
  · rw [if_neg hl, List.any_eq_false] at h
    intro idx hidx
    have := h idx hidx
    cases hfb : forbiddenVertex db g idx f with
    | false => rfl
    | true => exact absurd hfb this

theorem getPathsBetweenEndpoints_eq (db : DB) (sc ec : Coord)
    (af : Option MetaMap) :
    getPathsBetweenEndpoints db sc ec af =
      match lastIdx (createIgraph db).coords sc,
        lastIdx (createIgraph db).coords ec with
      | some si, some ei =>
          ((getAllSimplePaths (createIgraph db) si ei).filter fun p =>
            !(truthy af &&
              pathHasForbiddenIntermediate db (createIgraph db) p (af.getD []))).map
            fun p => mkPathInfo (createIgraph db) sc ec p
      | _, _ => [] := rfl

theorem mem_pathsBetween {db : DB} {sc ec : Coord} {af : Option MetaMap}
    {pi : PathInfo} (h : pi ∈ getPathsBetweenEndpoints db sc ec af) :
    ∃ si ei p, lastIdx (createIgraph db).coords sc = some si ∧
      lastIdx (createIgraph db).coords ec = some ei ∧
      p ∈ getAllSimplePaths (createIgraph db) si ei ∧
      (!(truthy af &&
        pathHasForbiddenIntermediate db (createIgraph db) p (af.getD []))) = true ∧
      pi.vertex_indices = p := by
  rw [getPathsBetweenEndpoints_eq] at h
  cases hsi : lastIdx (createIgraph db).coords sc with
  | none => rw [hsi] at h; cases h
  | some si =>
      cases hei : lastIdx (createIgraph db).coords ec with
      | none => rw [hsi, hei] at h; cases h
      | some ei =>
          rw [hsi, hei] at h
          obtain ⟨p, hp, rfl⟩ := List.mem_map.mp h
          obtain ⟨hp1, hp2⟩ := List.mem_filter.mp hp
          exact ⟨si, ei, p, rfl, rfl, hp1, hp2, rfl⟩

theorem mem_pathsBetweenGroups {db : DB} {scs ecs : List Coord}
    {af : Option MetaMap} {pi : PathInfo}
    (h : pi ∈ getPathsBetweenPointGroups db scs ecs af) :
    ∃ si ei p, p ∈ getAllSimplePaths (createIgraph db) si ei ∧
      (!(truthy af &&
        pathHasForbiddenIntermediate db (createIgraph db) p (af.getD []))) = true ∧
      pi.vertex_indices = p := by
  simp only [getPathsBetweenPointGroups, List.mem_flatMap] at h
  obtain ⟨si, _, ei, _, hmem⟩ := h
  by_cases hse : si = ei
  · rw [if_pos hse] at hmem
    cases hmem
  · rw [if_neg hse] at hmem
    obtain ⟨p, hp, rfl⟩ := List.mem_map.mp hmem
    obtain ⟨hp1, hp2⟩ := List.mem_filter.mp hp
    exact ⟨si, ei, p, hp1, hp2, rfl⟩

theorem mem_allEndpointPaths {db : DB} {epf sf ef : Option MetaMap}
    {pi : PathInfo} (h : pi ∈ getAllEndpointPaths db epf sf ef) :
    ∃ si ei p, p ∈ getAllSimplePaths (createIgraph db) si ei ∧
      (!(truthy (if sf.isSome || ef.isSome then ef else epf) &&
        pathHasForbiddenIntermediate db (createIgraph db) p
          ((if sf.isSome || ef.isSome then ef else epf).getD []))) = true ∧
      pi.vertex_indices = p := by
  simp only [getAllEndpointPaths, List.mem_flatMap] at h
  obtain ⟨si, _, ei, _, hmem⟩ := h
  by_cases hse : si = ei
  · rw [if_pos hse] at hmem
    cases hmem
  · rw [if_neg hse] at hmem
    by_cases hskip : (sf.isSome || ef.isSome) = true ∧
        (match firstActiveWithCoord db ((createIgraph db).coords.getD si (0, 0)) with
          | some p => truthy ef && matchesFilter p (ef.getD [])
          | none => false) = true
    · rw [if_pos (by simpa using hskip)] at hmem
      cases hmem
    · rw [if_neg (by simpa using hskip)] at hmem
      obtain ⟨p, hp, rfl⟩ := List.mem_map.mp hmem
      obtain ⟨hp1, hp2⟩ := List.mem_filter.mp hp
      exact ⟨si, ei, p, hp1, hp2, rfl⟩

/-- Extract "no forbidden intermediate" from a passed filter test with
a truthy (nonempty) filter. -/
theorem forbidden_false_of_filter_pass {db : DB} {g : NetGraph}
    {p : List ℕ} {f : MetaMap} (hf : f ≠ [])
    (h : (!(truthy (some f) && pathHasForbiddenIntermediate db g p f)) = true) :
    pathHasForbiddenIntermediate db g p f = false := by
  rw [truthy_of_ne hf] at h
  simpa using h

/-- C6 counterexample: the claim as stated fails for an EMPTY avoid
filter.  `{}` is falsy in Python, so `get_paths_between_endpoints`
skips the intermediate check entirely, yet the middle vertex of the
returned path `[0, 1, 2]` matches every key/value pair of the empty
filter (its metadata dict is nonempty). -/
theorem c6_empty_filter_counterexample :
    (getPathsBetweenEndpoints pathDb (0, 0) (2, 0) (some [])).map
        (fun pinfo => pinfo.vertex_indices) = [[0, 1, 2]] ∧
    intermediates [0, 1, 2] = [1] ∧
    forbiddenVertex pathDb (createIgraph pathDb) 1 [] = true := by
  decide

/-- C6 (amended): with a NONEMPTY avoid/end filter `f`, every path
returned by `getPathsBetweenEndpoints`, `getPathsBetweenPointGroups`
and `getAllEndpointPaths` (end filter `f`) has no intermediate vertex
(first and last excluded) matching `f`; and when every simple path of
the derived graph between a resolved start/end pair has a forbidden
intermediate, no path is returned for that pair.  (The original claim,
quantifying over all filters, fails for the empty dict: it is falsy
and disables the check, see the counterexample.) -/
theorem path_filter_spec (db : DB) (f : MetaMap) (hf : f ≠ []) :
    (∀ sc ec pinfo, pinfo ∈ getPathsBetweenEndpoints db sc ec (some f) →
      ∀ idx ∈ intermediates pinfo.vertex_indices,
        forbiddenVertex db (createIgraph db) idx f = false) ∧
    (∀ sc ec si ei, lastIdx (createIgraph db).coords sc = some si →
      lastIdx (createIgraph db).coords ec = some ei →
      (∀ p ∈ getAllSimplePaths (createIgraph db) si ei,
        pathHasForbiddenIntermediate db (createIgraph db) p f = true) →
      getPathsBetweenEndpoints db sc ec (some f) = []) ∧
    (∀ startCs endCs pinfo,
      pinfo ∈ getPathsBetweenPointGroups db startCs endCs (some f) →
      ∀ idx ∈ intermediates pinfo.vertex_indices,
        forbiddenVertex db (createIgraph db) idx f = false) ∧
    (∀ startCs endCs si ei,
      (∀ p ∈ getAllSimplePaths (createIgraph db) si ei,
        pathHasForbiddenIntermediate db (createIgraph db) p f = true) →
      ∀ pinfo ∈ getPathsBetweenPointGroups db startCs endCs (some f),
        ¬(pinfo.vertex_indices.head? = some si ∧
          pinfo.vertex_indices.getLast? = some ei)) ∧
    (∀ epf sf pinfo, pinfo ∈ getAllEndpointPaths db epf sf (some f) →
      ∀ idx ∈ intermediates pinfo.vertex_indices,
        forbiddenVertex db (createIgraph db) idx f = false) ∧
    (∀ epf sf si ei,
      (∀ p ∈ getAllSimplePaths (createIgraph db) si ei,
        pathHasForbiddenIntermediate db (createIgraph db) p f = true) →
      ∀ pinfo ∈ getAllEndpointPaths db epf sf (some f),
        ¬(pinfo.vertex_indices.head? = some si ∧
          pinfo.vertex_indices.getLast? = some ei)) := by
  have hcond : ∀ sf epf : Option MetaMap,
      (if sf.isSome || (some f : Option MetaMap).isSome then
        (some f : Option MetaMap) else epf) = some f := by
    intro sf epf
    simp
  refine ⟨?_, ?_, ?_, ?_, ?_, ?_⟩
  · intro sc ec pinfo hmem idx hidx
    obtain ⟨si, ei, p, _, _, _, hfl, hv⟩ := mem_pathsBetween hmem
    rw [hv] at hidx
    exact pathHasForbidden_false_intermediates
      (forbidden_false_of_filter_pass hf hfl) idx hidx
  · intro sc ec si ei hsi hei hall
    rw [getPathsBetweenEndpoints_eq, hsi, hei]
    show (((getAllSimplePaths (createIgraph db) si ei).filter fun p =>
        !(truthy (some f) &&
          pathHasForbiddenIntermediate db (createIgraph db) p
            ((some f).getD []))).map
        fun p => mkPathInfo (createIgraph db) sc ec p) = []
    have hfil : ((getAllSimplePaths (createIgraph db) si ei).filter fun p =>
        !(truthy (some f) &&
          pathHasForbiddenIntermediate db (createIgraph db) p
            ((some f).getD []))) = [] := by
      rw [List.filter_eq_nil_iff]
      intro p hp
      rw [truthy_of_ne hf]
      simp [hall p hp]
    rw [hfil]
    rfl
  · intro startCs endCs pinfo hmem idx hidx
    obtain ⟨si, ei, p, _, hfl, hv⟩ := mem_pathsBetweenGroups hmem
    rw [hv] at hidx
    exact pathHasForbidden_false_intermediates
      (forbidden_false_of_filter_pass hf hfl) idx hidx
  · intro startCs endCs si ei hall pinfo hmem
    rintro ⟨hh, hl⟩
    obtain ⟨si', ei', p, hp, hfl, hv⟩ := mem_pathsBetweenGroups hmem
    have hhl := simplePathsAux_head_last (createIgraph db) ei'
      (createIgraph db).coords.length si' [] p hp
    rw [hv, hhl.1] at hh
    rw [hv, hhl.2] at hl
    obtain rfl : si' = si := by injection hh
    obtain rfl : ei' = ei := by injection hl
    have htrue := hall p hp
    have hfalse := forbidden_false_of_filter_pass hf hfl
    rw [htrue] at hfalse
    cases hfalse
  · intro epf sf pinfo hmem idx hidx
    obtain ⟨si, ei, p, _, hfl, hv⟩ := mem_allEndpointPaths hmem
    rw [hcond sf epf] at hfl
    rw [hv] at hidx
    exact pathHasForbidden_false_intermediates
      (forbidden_false_of_filter_pass hf hfl) idx hidx
  · intro epf sf si ei hall pinfo hmem
    rintro ⟨hh, hl⟩
    obtain ⟨si', ei', p, hp, hfl, hv⟩ := mem_allEndpointPaths hmem
    rw [hcond sf epf] at hfl
    have hhl := simplePathsAux_head_last (createIgraph db) ei'
      (createIgraph db).coords.length si' [] p hp
    rw [hv, hhl.1] at hh
    rw [hv, hhl.2] at hl
    obtain rfl : si' = si := by injection hh
    obtain rfl : ei' = ei := by injection hl
    have htrue := hall p hp
    have hfalse := forbidden_false_of_filter_pass hf hfl
    rw [htrue] at hfalse
    cases hfalse

/-- Witness for `path_filter_spec`: at `pathDb` with the nonempty
filter matching the middle point, the only route from `(0,0)` to
`(2,0)` passes through a forbidden vertex, so the query is empty. -/
theorem path_filter_spec_witness :
    ([("is_end", Value.scalar (Scalar.bool true))] : MetaMap) ≠ [] ∧
    getPathsBetweenEndpoints pathDb (0, 0) (2, 0)
      (some [("is_end", Value.scalar (Scalar.bool true))]) = [] :=
  ⟨List.cons_ne_nil _ _, by
    have h := (path_filter_spec pathDb
      [("is_end", Value.scalar (Scalar.bool true))]
      (List.cons_ne_nil _ _)).2.1
    exact h (0, 0) (2, 0) 0 2 (by decide) (by decide) (by decide)⟩

end OrmModel
